import Mathlib

/-!
Verification of the Texas Hold'em poker engine of this repository.

The repository contains two parallel copies of the engine:
* the server copy (`server.js`), driving the networked authoritative mode, and
* the client copy (`utils/poker.ts` for the evaluator, `App.tsx` for the
  offline table logic).

This file gives a shallow embedding of both copies (cards, the two hand
evaluators, and the table/betting state machine) and proves or refutes the
frozen claims about them.

Modelling conventions:
* JavaScript numbers holding chip amounts are modelled as `Int` (all the
  arithmetic the engine performs on them is integer arithmetic).
* Card values are `Nat` (2..14 for genuine cards).
* The one place the client evaluator performs non-integer arithmetic (the
  one-pair kicker weighting `value * 0.1^i`) is modelled over `ℚ`; the binary
  floating point rounding of `0.1` is ignored.  No claim in this development
  depends on the exact value of that branch, only on its category band.
* JavaScript's `Array.prototype.sort` is stable (ES2019); the insertion sorts
  below compute exactly the stable descending (resp. ascending) sort.
* `Array.prototype.pop` removes the last element; `popCard` mirrors that.
* Mutation of a player object obtained from the `players` array is modelled
  by replacing the seat at the player's index; in JavaScript seat objects are
  distinct references, so a seat is identified by its index.
-/

/-- The four suits (`types.ts` / `server.js` `Suit`). -/
inductive Suit where
  | hearts
  | diamonds
  | clubs
  | spades
deriving DecidableEq, Repr

/-- A card as used by both evaluators: the evaluators read only `suit` and
`value` (2..14); the `rank` string of the source is determined by `value` and
is never consulted by the game logic, so it is omitted. -/
structure Card where
  suit : Suit
  value : Nat
deriving DecidableEq, Repr

/-- Stable insertion of a card into a descending-by-value list: the new card
goes before the first strictly smaller card and after earlier equal cards. -/
def insertCardDesc (c : Card) : List Card → List Card
  | [] => [c]
  | x :: xs => if x.value ≤ c.value then c :: x :: xs else x :: insertCardDesc c xs

/-- `[...hole, ...community].sort((a, b) => b.value - a.value)`: the stable
descending sort by card value used by both evaluators. -/
def sortCards : List Card → List Card
  | [] => []
  | c :: cs => insertCardDesc c (sortCards cs)

/-- Stable insertion for descending `Nat` sort. -/
def insertNatDesc (v : Nat) : List Nat → List Nat
  | [] => [v]
  | x :: xs => if x ≤ v then v :: x :: xs else x :: insertNatDesc v xs

/-- `.sort((a, b) => b - a)` on a list of numbers. -/
def sortNatDesc : List Nat → List Nat
  | [] => []
  | v :: vs => insertNatDesc v (sortNatDesc vs)

/-- Stable insertion for ascending `Nat` sort. -/
def insertNatAsc (v : Nat) : List Nat → List Nat
  | [] => [v]
  | x :: xs => if v ≤ x then v :: x :: xs else x :: insertNatAsc v xs

/-- Ascending numeric sort; `Object.keys` on an object with integer-like keys
iterates them in ascending numeric order. -/
def sortNatAsc : List Nat → List Nat
  | [] => []
  | v :: vs => insertNatAsc v (sortNatAsc vs)

/-- First-occurrence deduplication, the iteration order of a JavaScript `Set`
(`Array.from(new Set(..))`) and of `Object.keys` for string keys: the
distinct elements, each at the position of its first occurrence. -/
def uniqueFirst {α : Type} [DecidableEq α] : List α → List α
  | [] => []
  | a :: l => a :: (uniqueFirst l).filter (fun b => b ≠ a)

/-- Number of cards of suit `s` in `cs` (the `suits` counting object of
`isFlush`). -/
def suitCount (cs : List Card) (s : Suit) : Nat :=
  (cs.filter (fun c => c.suit = s)).length

/-- `isFlush` of both evaluator copies (they are textually identical): find
the first suit, in first-occurrence order, with at least five cards, and
return the first five cards of that suit from `cs`; otherwise `null`. -/
def isFlush (cs : List Card) : Option (List Card) :=
  let keys := uniqueFirst (cs.map (fun c => c.suit))
  match keys.find? (fun s => decide (5 ≤ suitCount cs s)) with
  | some s => some ((cs.filter (fun c => c.suit = s)).take 5)
  | none => none

/-- The sliding-window scan of `isStraight` (identical in both copies): over
the descending list of distinct values, return the first window head `a` with
`a - e = 4` where `e` is four positions later.  `Nat` subtraction agrees with
the JavaScript comparison here: `a - e = 4` (truncated) holds iff
`a = e + 4`. -/
def straightLoop : List Nat → Option Nat
  | a :: b :: c :: d :: e :: tail =>
      if a - e = 4 then some a else straightLoop (b :: c :: d :: e :: tail)
  | _ => none

/-- `Array.from(new Set(cs.map(c => c.value))).sort((a, b) => b - a)`: the
descending list of distinct card values. -/
def uniqueDesc (cs : List Card) : List Nat :=
  sortNatDesc (uniqueFirst (cs.map (fun c => c.value)))

/-- The client copy's `isStraight` (`utils/poker.ts`): window scan, then the
ace-low wheel test requiring all of A, 5, 4, 3, 2. -/
def isStraightClient (cs : List Card) : Option Nat :=
  let u := uniqueDesc cs
  match straightLoop u with
  | some hi => some hi
  | none =>
      if u.contains 14 && u.contains 5 && u.contains 4 && u.contains 3 && u.contains 2 then
        some 5
      else
        none

/-- The server copy's `isStraight` (`server.js`): window scan, then an
ace-low test requiring only A, 5 and 2 (the checks for 3 and 4 are absent in
the source). -/
def isStraightServer (cs : List Card) : Option Nat :=
  let u := uniqueDesc cs
  match straightLoop u with
  | some hi => some hi
  | none =>
      if u.contains 14 && u.contains 5 && u.contains 2 then some 5 else none

/-- Multiplicity of value `v` among the cards (the `counts` object of both
copies). -/
def countVal (cs : List Card) (v : Nat) : Nat :=
  (cs.map (fun c => c.value)).count v

/-- `Object.keys(counts)`: the distinct card values in ascending numeric
order (integer-like keys iterate numerically ascending in JavaScript). -/
def keysAsc (cs : List Card) : List Nat :=
  sortNatAsc (uniqueFirst (cs.map (fun c => c.value)))

/-- The value occurring four times, if any (`quads` in both copies). -/
def quadsOf (cs : List Card) : Option Nat :=
  (keysAsc cs).find? (fun v => decide (countVal cs v = 4))

/-- The values occurring three times, sorted descending (`trips`). -/
def tripsOf (cs : List Card) : List Nat :=
  sortNatDesc ((keysAsc cs).filter (fun v => decide (countVal cs v = 3)))

/-- The values occurring twice, sorted descending (`pairs`). -/
def pairsOf (cs : List Card) : List Nat :=
  sortNatDesc ((keysAsc cs).filter (fun v => decide (countVal cs v = 2)))

/-- The result of an evaluator: a numeric score (higher is better) and a
hand-category name. -/
structure HandEval where
  score : ℚ
  name : String
deriving DecidableEq, Repr

/-- The client evaluator `evaluateHand` of `utils/poker.ts`, branch for
branch.  The `?.value || 0` defaults of the source become `getD 0`.  Every
integer-valued score is computed in `Nat` and cast to `ℚ` once; only the
one-pair branch adds its fractional kicker weighting on top. -/
def clientEvaluateHand (holeCards communityCards : List Card) : HandEval :=
  let cards := sortCards (holeCards ++ communityCards)
  let flushCards := isFlush cards
  let straightHigh := isStraightClient cards
  let quads := quadsOf cards
  let trips := tripsOf cards
  let pairs := pairsOf cards
  match (match flushCards with
         | some f => isStraightClient f
         | none => none) with
  | some sfHigh => { score := ((9000000 + sfHigh : Nat) : ℚ), name := "Straight Flush" }
  | none =>
    match quads with
    | some q =>
        let kicker := ((cards.find? (fun c => c.value ≠ q)).map (fun c => c.value)).getD 0
        { score := ((8000000 + q * 100 + kicker : Nat) : ℚ), name := "Four of a Kind" }
    | none =>
      if 0 < trips.length ∧ (2 ≤ trips.length ∨ 0 < pairs.length) then
        let t := trips.getD 0 0
        let p := if 2 ≤ trips.length then trips.getD 1 0 else pairs.getD 0 0
        { score := ((7000000 + t * 100 + p : Nat) : ℚ), name := "Full House" }
      else
        match flushCards with
        | some f => { score := ((6000000 + (f.map (fun c => c.value)).headD 0 : Nat) : ℚ),
                      name := "Flush" }
        | none =>
          match straightHigh with
          | some hi => { score := ((5000000 + hi : Nat) : ℚ), name := "Straight" }
          | none =>
            if 0 < trips.length then
              let t := trips.getD 0 0
              let kickers := ((cards.filter (fun c => c.value ≠ t)).take 2).map
                (fun c => c.value)
              let kScore := (kickers.getD 0 0) * 10 + kickers.getD 1 0
              { score := ((4000000 + t * 1000 + kScore : Nat) : ℚ),
                name := "Three of a Kind" }
            else if 2 ≤ pairs.length then
              let p1 := pairs.getD 0 0
              let p2 := pairs.getD 1 0
              let kicker :=
                ((cards.find? (fun c => c.value ≠ p1 ∧ c.value ≠ p2)).map
                  (fun c => c.value)).getD 0
              { score := ((3000000 + p1 * 1000 + p2 * 10 + kicker : Nat) : ℚ),
                name := "Two Pair" }
            else if 0 < pairs.length then
              let p := pairs.getD 0 0
              let kickers := ((cards.filter (fun c => c.value ≠ p)).take 3).map
                (fun c => c.value)
              let kScore : ℚ :=
                (kickers.enum.map (fun iv => (iv.2 : ℚ) * (1 / 10) ^ iv.1)).sum
              { score := ((2000000 + p * 100 : Nat) : ℚ) + kScore, name := "One Pair" }
            else
              { score := ((1000000 + (cards.map (fun c => c.value)).headD 0 : Nat) : ℚ),
                name := "High Card" }

/-- The server evaluator `evaluateHand` of `server.js`, branch for branch.
It shares `isFlush`, the counting helpers and the window scan with the client
copy (those are textually identical in the source), but uses the weaker
ace-low test and omits all kicker/secondary terms from the quads, full house,
trips, two pair and one pair scores. -/
def serverEvaluateHand (holeCards communityCards : List Card) : HandEval :=
  let cards := sortCards (holeCards ++ communityCards)
  let flushCards := isFlush cards
  let straightHigh := isStraightServer cards
  let quads := quadsOf cards
  let trips := tripsOf cards
  let pairs := pairsOf cards
  match (match flushCards with
         | some f => isStraightServer f
         | none => none) with
  | some sfHigh => { score := ((9000000 + sfHigh : Nat) : ℚ), name := "Straight Flush" }
  | none =>
    match quads with
    | some q => { score := ((8000000 + q : Nat) : ℚ), name := "Four of a Kind" }
    | none =>
      if 0 < trips.length ∧ (2 ≤ trips.length ∨ 0 < pairs.length) then
        { score := ((7000000 + trips.getD 0 0 : Nat) : ℚ), name := "Full House" }
      else
        match flushCards with
        | some f => { score := ((6000000 + (f.map (fun c => c.value)).headD 0 : Nat) : ℚ),
                      name := "Flush" }
        | none =>
          match straightHigh with
          | some hi => { score := ((5000000 + hi : Nat) : ℚ), name := "Straight" }
          | none =>
            if 0 < trips.length then
              { score := ((4000000 + trips.getD 0 0 : Nat) : ℚ), name := "Three of a Kind" }
            else if 2 ≤ pairs.length then
              { score := ((3000000 + pairs.getD 0 0 : Nat) : ℚ), name := "Two Pair" }
            else if 0 < pairs.length then
              { score := ((2000000 + pairs.getD 0 0 : Nat) : ℚ), name := "One Pair" }
            else
              { score := ((1000000 + (cards.map (fun c => c.value)).headD 0 : Nat) : ℚ),
                name := "High Card" }

/-- Modelled from the spec's words (§4.2 rule 5): the card values contain
five consecutive distinct values with high card `hi`, or the ace-low wheel
A-2-3-4-5 (`hi = 5`).  This is the specification-side notion of "qualifies
as a straight", used to compare the code's behaviour against the claims. -/
def specHasStraightHigh (vs : List Nat) (hi : Nat) : Bool :=
  (decide (6 ≤ hi) && decide (hi ≤ 14) &&
    (List.range 5).all (fun j => vs.contains (hi - j))) ||
  (decide (hi = 5) && vs.contains 14 && vs.contains 5 && vs.contains 4 &&
    vs.contains 3 && vs.contains 2)

/-- Modelled from the spec's words: some straight (of any high card) is
present among the values. -/
def specHasStraight (vs : List Nat) : Bool :=
  (List.range 15).any (fun hi => specHasStraightHigh vs hi)

/-- Modelled from the spec's words (§4.2 rule 1, §8): the hand contains five
same-suit cards of consecutive values, i.e. qualifies as a straight flush. -/
def specContainsStraightFlush (cs : List Card) : Bool :=
  [Suit.hearts, Suit.diamonds, Suit.clubs, Suit.spades].any (fun s =>
    specHasStraight ((cs.filter (fun c => c.suit = s)).map (fun c => c.value)))

/-- Modelled from the spec's words (§4.2 rule 4): at least five cards of one
suit are present. -/
def specHasFlush (cs : List Card) : Bool :=
  [Suit.hearts, Suit.diamonds, Suit.clubs, Suit.spades].any (fun s =>
    decide (5 ≤ suitCount cs s))

/-- The degenerate ace-low pattern on which the two `isStraight` copies
disagree: the values contain A, 5 and 2 but lack 3 or lack 4.  On such
inputs the server's ace-low test fires although no wheel is present. -/
def degenerateWheel (vs : List Nat) : Bool :=
  vs.contains 14 && vs.contains 5 && vs.contains 2 &&
    !(vs.contains 3 && vs.contains 4)

/-- Player status (`types.ts` `PlayerStatus`; the server uses the same string
constants). -/
inductive PlayerStatus where
  | EMPTY
  | SITTING_OUT
  | PLAYING
  | FOLDED
  | ALL_IN
  | BUSTED
deriving DecidableEq, Repr

/-- Game phase (`types.ts` `GamePhase`; same strings on the server). -/
inductive GamePhase where
  | IDLE
  | PREFLOP
  | FLOP
  | TURN
  | RIVER
  | SHOWDOWN
deriving DecidableEq, Repr

/-- A seated player (`types.ts` `Player` / the seat objects of
`server.js`). -/
structure Player where
  id : Nat
  name : String
  chips : Int
  bet : Int
  status : PlayerStatus
  cards : List Card
  isDealer : Bool
  isSmallBlind : Bool
  isBigBlind : Bool
  hasActed : Bool
deriving DecidableEq, Repr

/-- A showdown winner record. -/
structure Winner where
  playerId : Nat
  handName : String
  amount : Int
deriving DecidableEq, Repr

/-- The table state (`types.ts` `GameState` / the `gameState` object of
`server.js`).  `currentPlayerIndex` and `dealerIndex` use the source's `-1`
sentinel, hence `Int`. -/
structure GameState where
  pot : Int
  communityCards : List Card
  deck : List Card
  phase : GamePhase
  currentPlayerIndex : Int
  dealerIndex : Int
  minBet : Int
  currentBet : Int
  lastRaiserIndex : Option Int
  winners : List Winner
  logs : List String
deriving DecidableEq, Repr

/-- The nine-element seat array `players` (null = empty seat). -/
abbrev Seats := List (Option Player)

/-- `players[i]` for an `Int` index: out-of-range access (including the `-1`
sentinel) yields `undefined`, i.e. `none`. -/
def getSeat (ps : Seats) (i : Int) : Option Player :=
  if 0 ≤ i then ps.getD i.toNat none else none

/-- Replace seat `i`; out-of-range writes are never performed by the code
paths modelled here, so they are mapped to the identity. -/
def setSeat (ps : Seats) (i : Int) (op : Option Player) : Seats :=
  if 0 ≤ i then ps.set i.toNat op else ps

/-- The small blind (`SMALL_BLIND = 10`). -/
def SMALL_BLIND : Int := 10

/-- The big blind (`BIG_BLIND = 20`). -/
def BIG_BLIND : Int := 20

/-- Seat `i` holds a player whose status is PLAYING (the probe of the
turn-advancing loops). -/
def seatPlaying (ps : Seats) (i : Nat) : Bool :=
  match ps.getD i none with
  | some q => q.status = PlayerStatus.PLAYING
  | none => false

/-- A non-null seat that has not folded and is not busted (the predicate of
`players.filter(p => p && p.status !== 'FOLDED' && p.status !== 'BUSTED')`). -/
def isActiveSeat (op : Option Player) : Bool :=
  match op with
  | some p => p.status ≠ PlayerStatus.FOLDED ∧ p.status ≠ PlayerStatus.BUSTED
  | none => false

/-- The non-folded, non-busted players, in seat order. -/
def activePlayers (ps : Seats) : List Player :=
  ps.filterMap (fun op => if isActiveSeat op then op else none)

/-- `addLog` of `server.js`: append, then drop the oldest entry when more
than 50 are stored. -/
def serverAddLog (gs : GameState) (msg : String) : GameState :=
  let l := gs.logs ++ [msg]
  { gs with logs := if 50 < l.length then l.tail else l }

/-- The turn-advancing loop of the server `action` handler:
`next = (idx+1)%9; while (!players[next] || players[next].status !== 'PLAYING'
|| players[next].status === 'ALL_IN') { next = (next+1)%9; if (next === idx)
break; }` (the ALL_IN disjunct is unreachable after the PLAYING test).  The
loop performs at most nine probes before the break fires, so fuel 9 is
exact. -/
def advanceTurnLoop (ps : Seats) (idx : Nat) : Nat → Nat → Nat
  | 0, cur => cur
  | fuel + 1, cur =>
      if seatPlaying ps cur then cur
      else
        let n2 := (cur + 1) % 9
        if n2 = idx then n2 else advanceTurnLoop ps idx fuel n2

/-- Turn advancement from seat `idx` after an action. -/
def advanceTurn (ps : Seats) (idx : Nat) : Int :=
  (advanceTurnLoop ps idx 9 ((idx + 1) % 9) : Nat)

/-- The player actions accepted by both engines. -/
inductive PokerAction where
  | fold
  | check
  | call
  | raise
deriving DecidableEq, Repr

/-- The per-player mutation of the server `action` handler (lines 326-352):
returns the updated player, the updated game state (a raise rewrites
`currentBet` and `lastRaiserIndex`), and the log message. -/
def serverApplyToPlayer (p : Player) (gs : GameState) (act : PokerAction)
    (amount : Int) (idx : Int) : Player × GameState × String :=
  let callAmount := gs.currentBet - p.bet
  match act with
  | PokerAction.fold =>
      ({ p with status := PlayerStatus.FOLDED }, gs, p.name ++ " folds.")
  | PokerAction.check =>
      (p, gs, p.name ++ " checks.")
  | PokerAction.call =>
      let amt := min callAmount p.chips
      let p1 := { p with chips := p.chips - amt, bet := p.bet + amt }
      let p2 := if p1.chips = 0 then { p1 with status := PlayerStatus.ALL_IN } else p1
      (p2, gs, p.name ++ " calls.")
  | PokerAction.raise =>
      let totalBet := gs.currentBet + amount
      let needed := totalBet - p.bet
      let p1 :=
        if p.chips ≤ needed then
          { p with bet := p.bet + p.chips, chips := 0, status := PlayerStatus.ALL_IN }
        else
          { p with chips := p.chips - needed, bet := p.bet + needed }
      let msg := if p.chips ≤ needed then p.name ++ " goes All-in!"
                 else p.name ++ " raises to " ++ toString p1.bet ++ "."
      (p1, { gs with currentBet := p1.bet, lastRaiserIndex := some idx }, msg)

/-- The server `action` socket handler (lines 318-372).  The round-completion
branch schedules `nextPhase` through a 0.5 s `setTimeout`; the handler itself
returns with the bets still uncollected, which is the state modelled here
(`serverNextPhase` is the separate deferred transition). -/
def serverAction (ps : Seats) (gs : GameState) (act : PokerAction)
    (amount : Int) : Seats × GameState :=
  let idx := gs.currentPlayerIndex
  match getSeat ps idx with
  | none => (ps, gs)
  | some p =>
      let r := serverApplyToPlayer p gs act amount idx
      let p2 := { r.1 with hasActed := true }
      let ps1 := setSeat ps idx (some p2)
      let gs2 := serverAddLog r.2.1 r.2.2
      let active := activePlayers ps1
      let allActed := active.all (fun q =>
        q.status = PlayerStatus.ALL_IN ∨ (q.bet = gs2.currentBet ∧ q.hasActed))
      if allActed ∧ 0 < active.length then
        (ps1, gs2)
      else
        (ps1, { gs2 with currentPlayerIndex := advanceTurn ps1 idx.toNat })

/-- The bet sweep opening the server's `nextPhase` (lines 124-132): every
seat's current-round bet joins the round pot and is cleared with the
has-acted flag.  Returns the swept seats and the collected round pot. -/
def sweepBets (ps : Seats) : Seats × Int :=
  (ps.map (Option.map (fun p => { p with bet := 0, hasActed := false })),
   (ps.map (fun op => match op with | some p => p.bet | none => 0)).sum)

/-- `collectBetsToPot` of the offline client (`App.tsx` lines 305-313): the
same sweep, returning `{ updatedPlayers, roundPot }`. -/
def clientCollectBetsToPot (ps : Seats) : Seats × Int :=
  (ps.map (fun op => match op with
     | some p => some { p with bet := 0, hasActed := false }
     | none => none),
   (ps.map (fun op => match op with | some p => p.bet | none => 0)).sum)

/-- `deck.pop()`: remove and return the last card. -/
def popCard (d : List Card) : Option Card × List Card :=
  (d.getLast?, d.dropLast)

/-- Scan for the first non-null, non-folded, non-busted seat, carrying the
current index. -/
def firstActiveIdxAux : Seats → Nat → Option Nat
  | [], _ => none
  | op :: rest, k => if isActiveSeat op then some k else firstActiveIdxAux rest (k + 1)

/-- Index of the first non-null, non-folded, non-busted seat (the
`players.find(p => p && ...)` of `handleShowdown`; a JavaScript object
reference is identified with its seat index). -/
def firstActiveIdx (ps : Seats) : Option Nat :=
  firstActiveIdxAux ps 0

/-- `handleShowdown(true)` of `server.js` (lines 201-214): the sole surviving
seat is credited the whole pot, the hand jumps to SHOWDOWN and the turn
pointer is cleared.  When no seat survives (unreachable from `nextPhase`),
nothing happens. -/
def serverHandleShowdownFolded (ps : Seats) (gs : GameState) : Seats × GameState :=
  match firstActiveIdx ps with
  | none => (ps, gs)
  | some i =>
      match ps.getD i none with
      | none => (ps, gs)
      | some w =>
          let ps1 := ps.set i (some { w with chips := w.chips + gs.pot })
          let rec1 : Winner :=
            { playerId := w.id, handName := "Opponents Folded", amount := gs.pot }
          let gs1 := serverAddLog { gs with winners := [rec1] }
            (w.name ++ " wins (opponents folded).")
          (ps1, { gs1 with
                    pot := 0
                    phase := GamePhase.SHOWDOWN
                    currentPlayerIndex := -1 })

/-- A showdown evaluation entry of `computeWinners`: player id, score, hand
name and the seat index (`players.indexOf(p)`, which for the distinct seat
objects of the source is the seat's position). -/
structure EvalEntry where
  playerId : Nat
  score : ℚ
  name : String
  index : Nat
deriving DecidableEq, Repr

/-- The candidate seats of `computeWinners` with their indices: in seat
order, every non-null seat that is neither folded nor busted. -/
def candsAux : Seats → Nat → List (Nat × Player)
  | [], _ => []
  | op :: rest, k =>
      (match op with
       | some p =>
           if p.status ≠ PlayerStatus.FOLDED ∧ p.status ≠ PlayerStatus.BUSTED then
             [(k, p)]
           else []
       | none => []) ++ candsAux rest (k + 1)

/-- Stable insertion into a descending-by-score list (the comparator
`(a, b) => b.score - a.score` under the ES2019 stable sort). -/
def insertEvalDesc (e : EvalEntry) : List EvalEntry → List EvalEntry
  | [] => [e]
  | x :: xs => if x.score ≤ e.score then e :: x :: xs else x :: insertEvalDesc e xs

/-- `evals.sort((a, b) => b.score - a.score)`. -/
def sortEvalsDesc : List EvalEntry → List EvalEntry
  | [] => []
  | e :: es => insertEvalDesc e (sortEvalsDesc es)

/-- The `evals` array of `computeWinners`: one entry per candidate seat,
scored by the server evaluator against the board. -/
def showdownEvals (ps : Seats) (gs : GameState) : List EvalEntry :=
  (candsAux ps 0).map (fun ip =>
    let ev := serverEvaluateHand ip.2.cards gs.communityCards
    { playerId := ip.2.id, score := ev.score, name := ev.name,
      index := ip.1 : EvalEntry })

/-- The `bestScore` of `computeWinners`: `evals[0].score` after the in-place
descending sort. -/
def bestScoreOf (ps : Seats) (gs : GameState) : ℚ :=
  ((sortEvalsDesc (showdownEvals ps gs)).headD
    { playerId := 0, score := 0, name := "", index := 0 }).score

/-- The `winners` array of `computeWinners`:
`evals.filter(e => e.score === bestScore)` (on the sorted array, since the
ES sort mutates in place). -/
def winnerEntries (ps : Seats) (gs : GameState) : List EvalEntry :=
  (sortEvalsDesc (showdownEvals ps gs)).filter
    (fun e => decide (e.score = bestScoreOf ps gs))

/-- `computeWinners` of `server.js` (lines 173-199): evaluate every
non-folded, non-busted seat against the board, keep all entries tied at the
best score, credit each of them `Math.floor(pot / winners.length)` (floor
division, `Int.fdiv`), append one winner record per tied entry, zero the pot
and clear the turn pointer.  The end-of-hand chip-summary log is modelled by
a fixed tag (its text affects no claim). -/
def serverComputeWinners (ps : Seats) (gs : GameState) : Seats × GameState :=
  if (showdownEvals ps gs).isEmpty then (ps, gs)
  else
    let winners := winnerEntries ps gs
    let splitAmt := Int.fdiv gs.pot (winners.length : Int)
    let ps1 := winners.foldl (fun acc w =>
      acc.set w.index (match acc.getD w.index none with
        | some p => some { p with chips := p.chips + splitAmt }
        | none => none)) ps
    let gs1 :=
      { gs with
          winners := gs.winners ++ winners.map (fun w =>
            { playerId := w.playerId, handName := w.name, amount := splitAmt })
          pot := 0
          currentPlayerIndex := -1 }
    (ps1, serverAddLog gs1 "End of Hand.")

/-- The post-sweep round-reset turn loop of `nextPhase`:
`nextIdx = (dealerIndex+1)%9; while (!players[nextIdx] ||
players[nextIdx].status !== 'PLAYING') nextIdx = (nextIdx+1)%9;`.  The source
loop has no break and diverges when no seat is PLAYING; the model returns the
last probe after nine steps, a situation no modelled claim reaches. -/
def nextPhaseTurnLoop (ps : Seats) : Nat → Nat → Nat
  | 0, cur => cur
  | fuel + 1, cur =>
      if seatPlaying ps cur then cur else nextPhaseTurnLoop ps fuel ((cur + 1) % 9)

/-- The common tail of `nextPhase` (lines 161-169): reset the round-betting
fields and hand the turn to the first PLAYING seat after the dealer. -/
def nextPhaseReset (ps1 : Seats) (g : GameState) : GameState :=
  { g with
      currentBet := 0
      lastRaiserIndex := none
      minBet := 0
      currentPlayerIndex :=
        (nextPhaseTurnLoop ps1 9 (((g.dealerIndex + 1) % 9).toNat) : Nat) }

/-- `nextPhase` of `server.js` (lines 123-171): sweep the bets into the pot;
if a single active seat remains, end the hand through
`serverHandleShowdownFolded`; otherwise deal according to the phase (three
cards on PREFLOP, one on FLOP and TURN, showdown on RIVER), reset the
round-betting fields and hand the turn to the first PLAYING seat after the
dealer.  `deck.pop()` on an empty deck would push `undefined` in the source;
the model skips the push (unreachable under correct sequencing). -/
def serverNextPhase (ps : Seats) (gs : GameState) : Seats × GameState :=
  let sw := sweepBets ps
  let ps1 := sw.1
  let gs1 := { gs with pot := gs.pot + sw.2 }
  if (activePlayers ps1).length = 1 then
    serverHandleShowdownFolded ps1 gs1
  else
    match gs1.phase with
    | GamePhase.PREFLOP =>
        let r1 := popCard gs1.deck
        let r2 := popCard r1.2
        let r3 := popCard r2.2
        let gs2 := serverAddLog
          { gs1 with
              communityCards := gs1.communityCards ++ [r1.1, r2.1, r3.1].filterMap id
              deck := r3.2
              phase := GamePhase.FLOP } "Flop dealt."
        (ps1, nextPhaseReset ps1 gs2)
    | GamePhase.FLOP =>
        let r1 := popCard gs1.deck
        let gs2 := serverAddLog
          { gs1 with
              communityCards := gs1.communityCards ++ [r1.1].filterMap id
              deck := r1.2
              phase := GamePhase.TURN } "Turn dealt."
        (ps1, nextPhaseReset ps1 gs2)
    | GamePhase.TURN =>
        let r1 := popCard gs1.deck
        let gs2 := serverAddLog
          { gs1 with
              communityCards := gs1.communityCards ++ [r1.1].filterMap id
              deck := r1.2
              phase := GamePhase.RIVER } "River dealt."
        (ps1, nextPhaseReset ps1 gs2)
    | GamePhase.RIVER =>
        let gs2 := serverAddLog { gs1 with phase := GamePhase.SHOWDOWN } "Showdown!"
        serverComputeWinners ps1 gs2
    | GamePhase.SHOWDOWN => (ps1, gs1)
    | GamePhase.IDLE => (ps1, nextPhaseReset ps1 gs1)

/-- The `sit` socket handler of `server.js` (lines 219-235): an occupied seat
makes the request a no-op; otherwise the seat is filled with a fresh
SITTING_OUT player and a log entry is added. -/
def serverSit (ps : Seats) (gs : GameState) (seatIndex : Int) (buyIn : Int)
    (nm : String) (sockId : Nat) : Seats × GameState :=
  match getSeat ps seatIndex with
  | some _ => (ps, gs)
  | none =>
      let ps1 := setSeat ps seatIndex (some
        { id := sockId, name := nm, chips := buyIn, bet := 0,
          status := PlayerStatus.SITTING_OUT, cards := [], isDealer := false,
          isSmallBlind := false, isBigBlind := false, hasActed := false })
      (ps1, serverAddLog gs (nm ++ " sat down."))

/-- The blind-posting step of the server's `startGame` handler (lines
294-300): the full blind amounts are subtracted unconditionally — there is no
`min` against the stack and no ALL_IN marking on that path. -/
def serverPostBlinds (ps : Seats) (sbIdx bbIdx : Nat) : Seats :=
  let ps1 := ps.set sbIdx ((ps.getD sbIdx none).map (fun p =>
    { p with chips := p.chips - SMALL_BLIND, bet := SMALL_BLIND, isSmallBlind := true }))
  ps1.set bbIdx ((ps1.getD bbIdx none).map (fun p =>
    { p with chips := p.chips - BIG_BLIND, bet := BIG_BLIND, isBigBlind := true }))

/-- The small-blind posting step of the offline client's `startNewHand`
(`App.tsx` lines 262-268): deduct `min(SMALL_BLIND, chips)`, mark ALL_IN when
the stack is exhausted. -/
def clientPostSmallBlind (p : Player) : Player :=
  let amt := min SMALL_BLIND p.chips
  let p1 := { p with chips := p.chips - amt, bet := amt, isSmallBlind := true }
  if p1.chips = 0 then { p1 with status := PlayerStatus.ALL_IN } else p1

/-- The big-blind posting step of the offline client's `startNewHand`
(`App.tsx` lines 270-276). -/
def clientPostBigBlind (p : Player) : Player :=
  let amt := min BIG_BLIND p.chips
  let p1 := { p with chips := p.chips - amt, bet := amt, isBigBlind := true }
  if p1.chips = 0 then { p1 with status := PlayerStatus.ALL_IN } else p1

/-- `handleAction` of the offline client (`App.tsx` lines 456-523, offline
branch).  An illegal check (`callAmount > 0`) returns before any mutation;
otherwise the seat is updated in place, and the `currentBet` /
`lastRaiserIndex` rewrite happens in the subsequent `setGameState` (for a
raise, or for a call that pushed the bet above the previous `currentBet`).
The message is appended twice — once by `addLog` and once more inside
`setGameState`, as in the source.  The turn pointer is advanced by a separate
effect, not by `handleAction`. -/
def clientHandleAction (ps : Seats) (gs : GameState) (act : PokerAction)
    (amount : Int) : Seats × GameState :=
  let idx := gs.currentPlayerIndex
  if idx = -1 then (ps, gs)
  else
    match getSeat ps idx with
    | none => (ps, gs)
    | some player =>
        let callAmount := gs.currentBet - player.bet
        if act = PokerAction.check ∧ 0 < callAmount then (ps, gs)
        else
          let p1 :=
            match act with
            | PokerAction.fold => { player with status := PlayerStatus.FOLDED }
            | PokerAction.check => player
            | PokerAction.call =>
                let actualCall := min callAmount player.chips
                let q := { player with chips := player.chips - actualCall,
                                       bet := player.bet + actualCall }
                if q.chips = 0 then { q with status := PlayerStatus.ALL_IN } else q
            | PokerAction.raise =>
                let totalBet := gs.currentBet + amount
                let addedChips := totalBet - player.bet
                if player.chips ≤ addedChips then
                  { player with bet := player.bet + player.chips, chips := 0,
                                status := PlayerStatus.ALL_IN }
                else
                  { player with chips := player.chips - addedChips,
                                bet := player.bet + addedChips }
          let p2 := { p1 with hasActed := true }
          let msg :=
            match act with
            | PokerAction.fold => player.name ++ " folds."
            | PokerAction.check => player.name ++ " checks."
            | PokerAction.call => player.name ++ " calls."
            | PokerAction.raise =>
                if player.chips ≤ gs.currentBet + amount - player.bet then
                  player.name ++ " goes All-In!"
                else player.name ++ " raises to " ++ toString p2.bet ++ "."
          let ps1 := setSeat ps idx (some p2)
          let doRewrite :=
            act = PokerAction.raise ∨
              (act = PokerAction.call ∧ gs.currentBet < p2.bet)
          let gs1 :=
            { gs with
                currentBet := (if doRewrite then p2.bet else gs.currentBet)
                lastRaiserIndex := (if doRewrite then some idx else gs.lastRaiserIndex)
                logs := gs.logs ++ [msg, msg] }
          (ps1, gs1)

/-- The total money of a seat array: chips plus current-round bet of every
seated player. -/
def seatSum (ps : Seats) : Int :=
  (ps.map (fun op => match op with | some p => p.chips + p.bet | none => 0)).sum

/-- The conserved quantity of the money-conservation claim: settled pot plus
every seated player's chips and current-round bet. -/
def money (ps : Seats) (gs : GameState) : Int :=
  gs.pot + seatSum ps

/-! ### Basic lemmas about the list helpers -/

theorem mem_uniqueFirst {α : Type} [DecidableEq α] (l : List α) (a : α) :
    a ∈ uniqueFirst l ↔ a ∈ l := by
  induction l with
  | nil => simp [uniqueFirst]
  | cons x xs ih =>
      by_cases hax : a = x
      · subst hax
        simp [uniqueFirst]
      · simp [uniqueFirst, List.mem_filter, hax, ih]

theorem insertNatDesc_perm (v : Nat) (l : List Nat) :
    (insertNatDesc v l).Perm (v :: l) := by
  induction l with
  | nil => simp [insertNatDesc]
  | cons x xs ih =>
      by_cases h : x ≤ v
      · simp [insertNatDesc, h]
      · simpa [insertNatDesc, h] using
          ((ih.cons x).trans (List.Perm.swap v x xs))

theorem sortNatDesc_perm (l : List Nat) : (sortNatDesc l).Perm l := by
  induction l with
  | nil => simp [sortNatDesc]
  | cons x xs ih =>
      exact (insertNatDesc_perm x (sortNatDesc xs)).trans (ih.cons x)

theorem mem_sortNatDesc (l : List Nat) (a : Nat) : a ∈ sortNatDesc l ↔ a ∈ l :=
  (sortNatDesc_perm l).mem_iff

theorem insertNatAsc_perm (v : Nat) (l : List Nat) :
    (insertNatAsc v l).Perm (v :: l) := by
  induction l with
  | nil => simp [insertNatAsc]
  | cons x xs ih =>
      by_cases h : v ≤ x
      · simp [insertNatAsc, h]
      · simpa [insertNatAsc, h] using
          ((ih.cons x).trans (List.Perm.swap v x xs))

theorem sortNatAsc_perm (l : List Nat) : (sortNatAsc l).Perm l := by
  induction l with
  | nil => simp [sortNatAsc]
  | cons x xs ih =>
      exact (insertNatAsc_perm x (sortNatAsc xs)).trans (ih.cons x)

theorem insertCardDesc_perm (c : Card) (l : List Card) :
    (insertCardDesc c l).Perm (c :: l) := by
  induction l with
  | nil => simp [insertCardDesc]
  | cons x xs ih =>
      by_cases h : x.value ≤ c.value
      · simp [insertCardDesc, h]
      · simpa [insertCardDesc, h] using
          ((ih.cons x).trans (List.Perm.swap c x xs))

theorem sortCards_perm (l : List Card) : (sortCards l).Perm l := by
  induction l with
  | nil => simp [sortCards]
  | cons x xs ih =>
      exact (insertCardDesc_perm x (sortCards xs)).trans (ih.cons x)

theorem mem_sortCards (l : List Card) (c : Card) : c ∈ sortCards l ↔ c ∈ l :=
  (sortCards_perm l).mem_iff

theorem mem_uniqueDesc (cs : List Card) (v : Nat) :
    v ∈ uniqueDesc cs ↔ v ∈ cs.map (fun c => c.value) := by
  unfold uniqueDesc
  rw [mem_sortNatDesc, mem_uniqueFirst]

theorem straightLoop_mem (l : List Nat) (h : Nat) :
    straightLoop l = some h → h ∈ l := by
  induction l using straightLoop.induct with
  | case1 a b c d e tail hcond =>
      intro hl
      rw [straightLoop, if_pos hcond] at hl
      simp at hl
      simp [hl]
  | case2 a b c d e tail hcond ih =>
      intro hl
      rw [straightLoop, if_neg hcond] at hl
      have := ih hl
      simp at this ⊢
      tauto
  | case3 l hl =>
      intro hcontra
      rcases l with _ | ⟨a, _ | ⟨b, _ | ⟨c, _ | ⟨d, _ | ⟨e, tail⟩⟩⟩⟩⟩
      · simp [straightLoop] at hcontra
      · simp [straightLoop] at hcontra
      · simp [straightLoop] at hcontra
      · simp [straightLoop] at hcontra
      · simp [straightLoop] at hcontra
      · exact (hl a b c d e tail rfl).elim

theorem contains_perm (l1 l2 : List Nat) (h : l1.Perm l2) (a : Nat) :
    l1.contains a = l2.contains a := by
  rw [Bool.eq_iff_iff]
  simp only [List.elem_iff]
  exact h.mem_iff

theorem contains_uniqueDesc (cs : List Card) (v : Nat) :
    (uniqueDesc cs).contains v = (cs.map (fun c => c.value)).contains v := by
  rw [Bool.eq_iff_iff]
  simp only [List.elem_iff]
  exact mem_uniqueDesc cs v

theorem degenerateWheel_perm (l1 l2 : List Nat) (h : l1.Perm l2) :
    degenerateWheel l1 = degenerateWheel l2 := by
  unfold degenerateWheel
  rw [contains_perm l1 l2 h 14, contains_perm l1 l2 h 5, contains_perm l1 l2 h 2,
      contains_perm l1 l2 h 3, contains_perm l1 l2 h 4]

/-- On any card list whose values avoid the degenerate ace-low pattern, the
two `isStraight` copies coincide. -/
theorem isStraight_eq_of_no_degWheel (cs : List Card)
    (h : degenerateWheel (cs.map (fun c => c.value)) = false) :
    isStraightClient cs = isStraightServer cs := by
  unfold isStraightClient isStraightServer
  cases hsl : straightLoop (uniqueDesc cs) with
  | some hi => simp [hsl]
  | none =>
      simp only [hsl]
      unfold degenerateWheel at h
      rw [contains_uniqueDesc cs 14, contains_uniqueDesc cs 5, contains_uniqueDesc cs 4,
          contains_uniqueDesc cs 3, contains_uniqueDesc cs 2]
      revert h
      generalize (cs.map (fun c => c.value)).contains 14 = b14
      generalize (cs.map (fun c => c.value)).contains 5 = b5
      generalize (cs.map (fun c => c.value)).contains 4 = b4
      generalize (cs.map (fun c => c.value)).contains 3 = b3
      generalize (cs.map (fun c => c.value)).contains 2 = b2
      cases b14 <;> cases b5 <;> cases b4 <;> cases b3 <;> cases b2 <;> simp

theorem countVal_le_one_of_nodup (cs : List Card)
    (h : (cs.map (fun c => c.value)).Nodup) (v : Nat) : countVal cs v ≤ 1 :=
  List.nodup_iff_count_le_one.mp h v

theorem quadsOf_eq_none_of_nodup (cs : List Card)
    (h : (cs.map (fun c => c.value)).Nodup) : quadsOf cs = none := by
  unfold quadsOf
  apply List.find?_eq_none.mpr
  intro v _
  have := countVal_le_one_of_nodup cs h v
  simp only [decide_eq_true_eq]
  omega

theorem tripsOf_eq_nil_of_nodup (cs : List Card)
    (h : (cs.map (fun c => c.value)).Nodup) : tripsOf cs = [] := by
  unfold tripsOf
  have hf : (keysAsc cs).filter (fun v => decide (countVal cs v = 3)) = [] := by
    rw [List.filter_eq_nil_iff]
    intro v _
    have := countVal_le_one_of_nodup cs h v
    simp only [decide_eq_true_eq]
    omega
  rw [hf]
  rfl

theorem pairsOf_eq_nil_of_nodup (cs : List Card)
    (h : (cs.map (fun c => c.value)).Nodup) : pairsOf cs = [] := by
  unfold pairsOf
  have hf : (keysAsc cs).filter (fun v => decide (countVal cs v = 2)) = [] := by
    rw [List.filter_eq_nil_iff]
    intro v _
    have := countVal_le_one_of_nodup cs h v
    simp only [decide_eq_true_eq]
    omega
  rw [hf]
  rfl

theorem isFlush_subset (cs f : List Card) (h : isFlush cs = some f) :
    ∀ c ∈ f, c ∈ cs := by
  unfold isFlush at h
  cases hfind : (uniqueFirst (cs.map (fun c => c.suit))).find?
      (fun s => decide (5 ≤ suitCount cs s)) with
  | some s =>
      simp only [hfind] at h
      intro c hc
      have hmem : c ∈ (cs.filter (fun c => c.suit = s)).take 5 := by
        rw [Option.some_inj] at h
        rw [h]
        exact hc
      exact List.mem_of_mem_filter (List.mem_of_mem_take hmem)
  | none => simp [hfind] at h

theorem isStraightClient_high (cs : List Card) (hi : Nat)
    (h : isStraightClient cs = some hi) :
    hi ∈ cs.map (fun c => c.value) ∨ hi = 5 := by
  unfold isStraightClient at h
  cases hsl : straightLoop (uniqueDesc cs) with
  | some v =>
      simp only [hsl, Option.some_inj] at h
      subst h
      exact Or.inl ((mem_uniqueDesc cs v).mp (straightLoop_mem _ v hsl))
  | none =>
      simp only [hsl] at h
      by_cases hc : ((uniqueDesc cs).contains 14 && (uniqueDesc cs).contains 5 &&
          (uniqueDesc cs).contains 4 && (uniqueDesc cs).contains 3 &&
          (uniqueDesc cs).contains 2) = true
      · rw [if_pos hc, Option.some_inj] at h
        exact Or.inr h.symm
      · rw [if_neg hc] at h
        exact Option.noConfusion h

theorem isStraightServer_high (cs : List Card) (hi : Nat)
    (h : isStraightServer cs = some hi) :
    hi ∈ cs.map (fun c => c.value) ∨ hi = 5 := by
  unfold isStraightServer at h
  cases hsl : straightLoop (uniqueDesc cs) with
  | some v =>
      simp only [hsl, Option.some_inj] at h
      subst h
      exact Or.inl ((mem_uniqueDesc cs v).mp (straightLoop_mem _ v hsl))
  | none =>
      simp only [hsl] at h
      by_cases hc : ((uniqueDesc cs).contains 14 && (uniqueDesc cs).contains 5 &&
          (uniqueDesc cs).contains 2) = true
      · rw [if_pos hc, Option.some_inj] at h
        exact Or.inr h.symm
      · rw [if_neg hc] at h
        exact Option.noConfusion h

/-- A hand the client evaluator classifies as a straight flush scores at
least 9,000,000. -/
theorem clientEval_sf_lower (hole board : List Card) :
    (clientEvaluateHand hole board).name = "Straight Flush" →
    ((9000000 : Nat) : ℚ) ≤ (clientEvaluateHand hole board).score := by
  unfold clientEvaluateHand
  dsimp only
  repeat' split
  all_goals intro h
  all_goals simp only at h ⊢
  all_goals first
    | exact absurd h (by decide)
    | exact_mod_cast Nat.le_add_right 9000000 _

/-- A hand the server evaluator classifies as a straight flush scores at
least 9,000,000. -/
theorem serverEval_sf_lower (hole board : List Card) :
    (serverEvaluateHand hole board).name = "Straight Flush" →
    ((9000000 : Nat) : ℚ) ≤ (serverEvaluateHand hole board).score := by
  unfold serverEvaluateHand
  dsimp only
  repeat' split
  all_goals intro h
  all_goals simp only at h ⊢
  all_goals first
    | exact absurd h (by decide)
    | exact_mod_cast Nat.le_add_right 9000000 _

/-- With genuine card values (at most 14), a hand the client evaluator
classifies as a flush or a straight scores at most 6,000,014. -/
theorem clientEval_flush_straight_upper (hole board : List Card)
    (hv : ∀ c ∈ hole ++ board, c.value ≤ 14) :
    ((clientEvaluateHand hole board).name = "Flush" ∨
     (clientEvaluateHand hole board).name = "Straight") →
    (clientEvaluateHand hole board).score ≤ ((6000014 : Nat) : ℚ) := by
  have hv' : ∀ c ∈ sortCards (hole ++ board), c.value ≤ 14 := by
    intro c hc
    exact hv c ((mem_sortCards _ c).mp hc)
  unfold clientEvaluateHand
  dsimp only
  repeat' split
  all_goals intro h
  all_goals simp only at h ⊢
  all_goals try (rcases h with h | h <;> exact absurd h (by decide))
  · rename_i f heq
    have hsub := isFlush_subset _ _ heq
    have hx : (f.map (fun c => c.value)).headD 0 ≤ 14 := by
      cases f with
      | nil => simp
      | cons c t => simpa using hv' c (hsub c (by simp))
    have hb : 6000000 + (f.map (fun c => c.value)).headD 0 ≤ 6000014 := by omega
    exact_mod_cast hb
  · rename_i hi heq
    have hx : hi ≤ 14 := by
      rcases isStraightClient_high _ _ heq with hm | h5
      · rcases List.mem_map.mp hm with ⟨c, hc, hcv⟩
        rw [← hcv]
        exact hv' c hc
      · omega
    have hb : 5000000 + hi ≤ 6000014 := by omega
    exact_mod_cast hb

/-- With genuine card values (at most 14), a hand the server evaluator
classifies as a flush or a straight scores at most 6,000,014. -/
theorem serverEval_flush_straight_upper (hole board : List Card)
    (hv : ∀ c ∈ hole ++ board, c.value ≤ 14) :
    ((serverEvaluateHand hole board).name = "Flush" ∨
     (serverEvaluateHand hole board).name = "Straight") →
    (serverEvaluateHand hole board).score ≤ ((6000014 : Nat) : ℚ) := by
  have hv' : ∀ c ∈ sortCards (hole ++ board), c.value ≤ 14 := by
    intro c hc
    exact hv c ((mem_sortCards _ c).mp hc)
  unfold serverEvaluateHand
  dsimp only
  repeat' split
  all_goals intro h
  all_goals simp only at h ⊢
  all_goals try (rcases h with h | h <;> exact absurd h (by decide))
  · rename_i f heq
    have hsub := isFlush_subset _ _ heq
    have hx : (f.map (fun c => c.value)).headD 0 ≤ 14 := by
      cases f with
      | nil => simp
      | cons c t => simpa using hv' c (hsub c (by simp))
    have hb : 6000000 + (f.map (fun c => c.value)).headD 0 ≤ 6000014 := by omega
    exact_mod_cast hb
  · rename_i hi heq
    have hx : hi ≤ 14 := by
      rcases isStraightServer_high _ _ heq with hm | h5
      · rcases List.mem_map.mp hm with ⟨c, hc, hcv⟩
        rw [← hcv]
        exact hv' c hc
      · omega
    have hb : 5000000 + hi ≤ 6000014 := by omega
    exact_mod_cast hb

/-! ### Claims C1-C3: the hand evaluators -/

/-- Claim C1, counterexample.  The two evaluator copies are not behaviorally
equivalent: on quad aces with a king kicker the client scores
8,001,413 (kicker weighted in) while the server scores 8,000,014, and on
A-9-8-5-2 of mixed suits the client reports "High Card" while the server's
truncated ace-low test reports "Straight". -/
theorem c1_counterexample :
    (clientEvaluateHand [⟨Suit.hearts, 14⟩, ⟨Suit.diamonds, 14⟩]
        [⟨Suit.clubs, 14⟩, ⟨Suit.spades, 14⟩, ⟨Suit.hearts, 13⟩]).score ≠
      (serverEvaluateHand [⟨Suit.hearts, 14⟩, ⟨Suit.diamonds, 14⟩]
        [⟨Suit.clubs, 14⟩, ⟨Suit.spades, 14⟩, ⟨Suit.hearts, 13⟩]).score ∧
    (clientEvaluateHand [⟨Suit.hearts, 14⟩, ⟨Suit.diamonds, 9⟩]
        [⟨Suit.clubs, 8⟩, ⟨Suit.spades, 5⟩, ⟨Suit.hearts, 2⟩]).name ≠
      (serverEvaluateHand [⟨Suit.hearts, 14⟩, ⟨Suit.diamonds, 9⟩]
        [⟨Suit.clubs, 8⟩, ⟨Suit.spades, 5⟩, ⟨Suit.hearts, 2⟩]).name := by
  decide

/-- Claim C1 (amended): the client and the server `evaluateHand` return the
same score and the same hand-category name on every input whose card values
are pairwise distinct (so no pair, trips, quads or full house arises, where
the server drops the kicker and secondary-rank terms), whose values do not
contain A, 5 and 2 while missing 3 or 4, and whose flush subset (when one
exists) also avoids that pattern (the server's ace-low test fires spuriously
on such inputs).  On the excluded inputs the copies genuinely differ, as the
counterexample shows. -/
theorem c1_engines_agree_on_nodup_nonwheel (hole board : List Card)
    (hnd : ((hole ++ board).map (fun c => c.value)).Nodup)
    (hdw : degenerateWheel ((hole ++ board).map (fun c => c.value)) = false)
    (hfl : ∀ f, isFlush (sortCards (hole ++ board)) = some f →
      degenerateWheel (f.map (fun c => c.value)) = false) :
    clientEvaluateHand hole board = serverEvaluateHand hole board := by
  have hperm : ((sortCards (hole ++ board)).map (fun c => c.value)).Perm
      ((hole ++ board).map (fun c => c.value)) := (sortCards_perm _).map _
  have hnd' : ((sortCards (hole ++ board)).map (fun c => c.value)).Nodup :=
    hperm.nodup_iff.mpr hnd
  have hdw' : degenerateWheel
      ((sortCards (hole ++ board)).map (fun c => c.value)) = false :=
    (degenerateWheel_perm _ _ hperm).trans hdw
  have hq := quadsOf_eq_none_of_nodup _ hnd'
  have ht := tripsOf_eq_nil_of_nodup _ hnd'
  have hp := pairsOf_eq_nil_of_nodup _ hnd'
  have hs := isStraight_eq_of_no_degWheel _ hdw'
  unfold clientEvaluateHand serverEvaluateHand
  simp only [hq, ht, hp, hs]
  cases hf : isFlush (sortCards (hole ++ board)) with
  | some f =>
      have hsf := isStraight_eq_of_no_degWheel f (hfl f hf)
      simp only [hsf]
      cases isStraightServer f with
      | some sf => rfl
      | none => simp
  | none =>
      cases isStraightServer (sortCards (hole ++ board)) with
      | some hi => simp
      | none => simp

/-- Witness for C1's amended theorem at hole A-K, board Q-J-2 of mixed
suits. -/
theorem c1_engines_agree_witness :
    ((([⟨Suit.hearts, 14⟩, ⟨Suit.diamonds, 13⟩] ++
        [⟨Suit.clubs, 12⟩, ⟨Suit.spades, 11⟩, ⟨Suit.hearts, 2⟩] : List Card).map
        (fun c => c.value)).Nodup) ∧
    clientEvaluateHand [⟨Suit.hearts, 14⟩, ⟨Suit.diamonds, 13⟩]
        [⟨Suit.clubs, 12⟩, ⟨Suit.spades, 11⟩, ⟨Suit.hearts, 2⟩] =
      serverEvaluateHand [⟨Suit.hearts, 14⟩, ⟨Suit.diamonds, 13⟩]
        [⟨Suit.clubs, 12⟩, ⟨Suit.spades, 11⟩, ⟨Suit.hearts, 2⟩] :=
  ⟨by decide,
   c1_engines_agree_on_nodup_nonwheel
     [⟨Suit.hearts, 14⟩, ⟨Suit.diamonds, 13⟩]
     [⟨Suit.clubs, 12⟩, ⟨Suit.spades, 11⟩, ⟨Suit.hearts, 2⟩]
     (by decide) (by decide)
     (by
       intro f hf0
       rw [show isFlush (sortCards ([⟨Suit.hearts, 14⟩, ⟨Suit.diamonds, 13⟩] ++
           [⟨Suit.clubs, 12⟩, ⟨Suit.spades, 11⟩, ⟨Suit.hearts, 2⟩])) = none from
         by decide] at hf0
       exact Option.noConfusion hf0)⟩

/-- Claim C2: the server's `isStraight` treats any hand containing an ace, a
five and a two as an ace-low straight.  On hole A-9 and board 8-5-2 of mixed
suits — values with no five consecutive distinct values and no wheel — the
server `evaluateHand` reports a Straight with score 5,000,005, while the
client copy (which implements the claimed rule) reports High Card
1,000,014. -/
theorem c2_server_acelow_straight_misfire :
    serverEvaluateHand [⟨Suit.hearts, 14⟩, ⟨Suit.diamonds, 9⟩]
        [⟨Suit.clubs, 8⟩, ⟨Suit.spades, 5⟩, ⟨Suit.hearts, 2⟩] =
      { score := ((5000005 : Nat) : ℚ), name := "Straight" } ∧
    clientEvaluateHand [⟨Suit.hearts, 14⟩, ⟨Suit.diamonds, 9⟩]
        [⟨Suit.clubs, 8⟩, ⟨Suit.spades, 5⟩, ⟨Suit.hearts, 2⟩] =
      { score := ((1000014 : Nat) : ℚ), name := "High Card" } ∧
    specHasStraight [14, 9, 8, 5, 2] = false := by
  decide

/-- Claim C3, counterexample.  The hand K-9-8-7-6-5 of hearts plus an
off-suit two contains the straight flush 9-8-7-6-5 of hearts, but both
evaluators take only the top five hearts (K-9-8-7-6, not consecutive) as the
flush subset and score the hand as a mere flush, 6,000,013 — strictly below
the 6,000,014 of an ace-high heart flush that qualifies only as a flush. -/
theorem c3_counterexample :
    specContainsStraightFlush ([⟨Suit.hearts, 13⟩, ⟨Suit.hearts, 9⟩] ++
      [⟨Suit.hearts, 8⟩, ⟨Suit.hearts, 7⟩, ⟨Suit.hearts, 6⟩, ⟨Suit.hearts, 5⟩,
       ⟨Suit.diamonds, 2⟩]) = true ∧
    specHasFlush ([⟨Suit.hearts, 14⟩, ⟨Suit.hearts, 12⟩] ++
      [⟨Suit.hearts, 9⟩, ⟨Suit.hearts, 8⟩, ⟨Suit.hearts, 7⟩, ⟨Suit.diamonds, 3⟩,
       ⟨Suit.clubs, 2⟩]) = true ∧
    specContainsStraightFlush ([⟨Suit.hearts, 14⟩, ⟨Suit.hearts, 12⟩] ++
      [⟨Suit.hearts, 9⟩, ⟨Suit.hearts, 8⟩, ⟨Suit.hearts, 7⟩, ⟨Suit.diamonds, 3⟩,
       ⟨Suit.clubs, 2⟩]) = false ∧
    specHasStraight (([⟨Suit.hearts, 14⟩, ⟨Suit.hearts, 12⟩] ++
      [⟨Suit.hearts, 9⟩, ⟨Suit.hearts, 8⟩, ⟨Suit.hearts, 7⟩, ⟨Suit.diamonds, 3⟩,
       ⟨Suit.clubs, 2⟩] : List Card).map (fun c => c.value)) = false ∧
    clientEvaluateHand [⟨Suit.hearts, 13⟩, ⟨Suit.hearts, 9⟩]
        [⟨Suit.hearts, 8⟩, ⟨Suit.hearts, 7⟩, ⟨Suit.hearts, 6⟩, ⟨Suit.hearts, 5⟩,
         ⟨Suit.diamonds, 2⟩] =
      { score := ((6000013 : Nat) : ℚ), name := "Flush" } ∧
    serverEvaluateHand [⟨Suit.hearts, 13⟩, ⟨Suit.hearts, 9⟩]
        [⟨Suit.hearts, 8⟩, ⟨Suit.hearts, 7⟩, ⟨Suit.hearts, 6⟩, ⟨Suit.hearts, 5⟩,
         ⟨Suit.diamonds, 2⟩] =
      { score := ((6000013 : Nat) : ℚ), name := "Flush" } ∧
    ¬ ((clientEvaluateHand [⟨Suit.hearts, 14⟩, ⟨Suit.hearts, 12⟩]
        [⟨Suit.hearts, 9⟩, ⟨Suit.hearts, 8⟩, ⟨Suit.hearts, 7⟩, ⟨Suit.diamonds, 3⟩,
         ⟨Suit.clubs, 2⟩]).score <
       (clientEvaluateHand [⟨Suit.hearts, 13⟩, ⟨Suit.hearts, 9⟩]
        [⟨Suit.hearts, 8⟩, ⟨Suit.hearts, 7⟩, ⟨Suit.hearts, 6⟩, ⟨Suit.hearts, 5⟩,
         ⟨Suit.diamonds, 2⟩]).score) ∧
    ¬ ((serverEvaluateHand [⟨Suit.hearts, 14⟩, ⟨Suit.hearts, 12⟩]
        [⟨Suit.hearts, 9⟩, ⟨Suit.hearts, 8⟩, ⟨Suit.hearts, 7⟩, ⟨Suit.diamonds, 3⟩,
         ⟨Suit.clubs, 2⟩]).score <
       (serverEvaluateHand [⟨Suit.hearts, 13⟩, ⟨Suit.hearts, 9⟩]
        [⟨Suit.hearts, 8⟩, ⟨Suit.hearts, 7⟩, ⟨Suit.hearts, 6⟩, ⟨Suit.hearts, 5⟩,
         ⟨Suit.diamonds, 2⟩]).score) := by
  decide

/-- Claim C3 (amended): any hand that the evaluator itself classifies as a
straight flush scores strictly higher than any hand of genuine cards that it
classifies as only a flush or only a straight — for both the client and the
server copy.  (The original claim, quantifying over hands that merely
*contain* five same-suit consecutive cards, fails: when those five cards are
not the top five of the suit the evaluators classify the hand as a flush, as
the counterexample shows.) -/
theorem c3_sf_beats_flush_and_straight (hA bA hB bB : List Card)
    (hvB : ∀ c ∈ hB ++ bB, c.value ≤ 14) :
    ((clientEvaluateHand hA bA).name = "Straight Flush" →
      ((clientEvaluateHand hB bB).name = "Flush" ∨
       (clientEvaluateHand hB bB).name = "Straight") →
      (clientEvaluateHand hB bB).score < (clientEvaluateHand hA bA).score) ∧
    ((serverEvaluateHand hA bA).name = "Straight Flush" →
      ((serverEvaluateHand hB bB).name = "Flush" ∨
       (serverEvaluateHand hB bB).name = "Straight") →
      (serverEvaluateHand hB bB).score < (serverEvaluateHand hA bA).score) := by
  have hgap : ((6000014 : Nat) : ℚ) < ((9000000 : Nat) : ℚ) := by
    exact_mod_cast (by omega : (6000014 : Nat) < 9000000)
  constructor
  · intro hA' hB'
    have h1 := clientEval_sf_lower hA bA hA'
    have h2 := clientEval_flush_straight_upper hB bB hvB hB'
    linarith
  · intro hA' hB'
    have h1 := serverEval_sf_lower hA bA hA'
    have h2 := serverEval_flush_straight_upper hB bB hvB hB'
    linarith

/-- Witness for C3's amended theorem: a royal flush against an ace-high
flush, on both engines. -/
theorem c3_sf_beats_flush_witness :
    (∀ c ∈ ([⟨Suit.hearts, 14⟩, ⟨Suit.hearts, 12⟩] ++
      [⟨Suit.hearts, 9⟩, ⟨Suit.hearts, 8⟩, ⟨Suit.hearts, 7⟩, ⟨Suit.diamonds, 3⟩,
       ⟨Suit.clubs, 2⟩] : List Card), c.value ≤ 14) ∧
    (clientEvaluateHand [⟨Suit.hearts, 14⟩, ⟨Suit.hearts, 12⟩]
        [⟨Suit.hearts, 9⟩, ⟨Suit.hearts, 8⟩, ⟨Suit.hearts, 7⟩, ⟨Suit.diamonds, 3⟩,
         ⟨Suit.clubs, 2⟩]).score <
      (clientEvaluateHand [⟨Suit.hearts, 14⟩, ⟨Suit.hearts, 13⟩]
        [⟨Suit.hearts, 12⟩, ⟨Suit.hearts, 11⟩, ⟨Suit.hearts, 10⟩]).score ∧
    (serverEvaluateHand [⟨Suit.hearts, 14⟩, ⟨Suit.hearts, 12⟩]
        [⟨Suit.hearts, 9⟩, ⟨Suit.hearts, 8⟩, ⟨Suit.hearts, 7⟩, ⟨Suit.diamonds, 3⟩,
         ⟨Suit.clubs, 2⟩]).score <
      (serverEvaluateHand [⟨Suit.hearts, 14⟩, ⟨Suit.hearts, 13⟩]
        [⟨Suit.hearts, 12⟩, ⟨Suit.hearts, 11⟩, ⟨Suit.hearts, 10⟩]).score :=
  ⟨by decide,
   (c3_sf_beats_flush_and_straight
      [⟨Suit.hearts, 14⟩, ⟨Suit.hearts, 13⟩] [⟨Suit.hearts, 12⟩, ⟨Suit.hearts, 11⟩, ⟨Suit.hearts, 10⟩]
      [⟨Suit.hearts, 14⟩, ⟨Suit.hearts, 12⟩]
      [⟨Suit.hearts, 9⟩, ⟨Suit.hearts, 8⟩, ⟨Suit.hearts, 7⟩, ⟨Suit.diamonds, 3⟩, ⟨Suit.clubs, 2⟩]
      (by decide)).1 (by decide) (Or.inl (by decide)),
   (c3_sf_beats_flush_and_straight
      [⟨Suit.hearts, 14⟩, ⟨Suit.hearts, 13⟩] [⟨Suit.hearts, 12⟩, ⟨Suit.hearts, 11⟩, ⟨Suit.hearts, 10⟩]
      [⟨Suit.hearts, 14⟩, ⟨Suit.hearts, 12⟩]
      [⟨Suit.hearts, 9⟩, ⟨Suit.hearts, 8⟩, ⟨Suit.hearts, 7⟩, ⟨Suit.diamonds, 3⟩, ⟨Suit.clubs, 2⟩]
      (by decide)).2 (by decide) (Or.inl (by decide))⟩

/-! ### Lemmas about the table state machine -/

theorem seatSum_set (ps : Seats) (n : Nat) (p q : Player)
    (h : ps.getD n none = some p) :
    seatSum (ps.set n (some q)) = seatSum ps - (p.chips + p.bet) + (q.chips + q.bet) := by
  induction ps generalizing n with
  | nil => simp [List.getD] at h
  | cons op rest ih =>
      cases n with
      | zero =>
          simp only [List.getD_cons_zero] at h
          subst h
          simp [seatSum]
          ring
      | succ m =>
          simp only [List.getD_cons_succ] at h
          have := ih m h
          simp [seatSum] at this ⊢
          omega

/-- Every branch of the per-player action mutation preserves chips plus bet,
and none of them touches the pot. -/
theorem serverApplyToPlayer_money (p : Player) (gs : GameState) (act : PokerAction)
    (amount idx : Int) :
    (serverApplyToPlayer p gs act amount idx).1.chips +
        (serverApplyToPlayer p gs act amount idx).1.bet = p.chips + p.bet ∧
      (serverApplyToPlayer p gs act amount idx).2.1.pot = gs.pot := by
  refine ⟨?_, ?_⟩
  · cases act with
    | fold => rfl
    | check => rfl
    | call =>
        unfold serverApplyToPlayer
        dsimp only
        split <;> dsimp only <;> ring
    | raise =>
        unfold serverApplyToPlayer
        dsimp only
        split <;> dsimp only <;> ring
  · cases act with
    | fold => rfl
    | check => rfl
    | call => rfl
    | raise => rfl

theorem money_after_update (ps : Seats) (gs gs' : GameState) (idx : Int) (p q : Player)
    (hseat : getSeat ps idx = some p)
    (hmoney : q.chips + q.bet = p.chips + p.bet)
    (hpot : gs'.pot = gs.pot) :
    money (setSeat ps idx (some q)) gs' = money ps gs := by
  have h0 : 0 ≤ idx ∧ ps.getD idx.toNat none = some p := by
    unfold getSeat at hseat
    by_cases h : 0 ≤ idx
    · rw [if_pos h] at hseat
      exact ⟨h, hseat⟩
    · rw [if_neg h] at hseat
      exact Option.noConfusion hseat
  unfold money setSeat
  rw [if_pos h0.1, seatSum_set ps idx.toNat p q h0.2, hpot]
  omega

/-- The server `action` handler conserves pot plus all chips and bets. -/
theorem serverAction_money (ps : Seats) (gs : GameState) (act : PokerAction)
    (amount : Int) :
    money (serverAction ps gs act amount).1 (serverAction ps gs act amount).2 =
      money ps gs := by
  unfold serverAction
  dsimp only
  split
  · rfl
  · rename_i p hseat
    have happ := serverApplyToPlayer_money p gs act amount gs.currentPlayerIndex
    split
    · exact money_after_update ps gs _ gs.currentPlayerIndex p _ hseat
        (by simpa using happ.1) (by simpa [serverAddLog] using happ.2)
    · exact money_after_update ps gs _ gs.currentPlayerIndex p _ hseat
        (by simpa using happ.1) (by simpa [serverAddLog] using happ.2)

/-- The server bet sweep moves exactly the round bets into the round pot. -/
theorem sweepBets_money (ps : Seats) :
    (sweepBets ps).2 + seatSum (sweepBets ps).1 = seatSum ps := by
  unfold sweepBets
  induction ps with
  | nil => simp [seatSum]
  | cons op rest ih =>
      cases op with
      | none => simpa [seatSum] using ih
      | some p =>
          simp [seatSum] at ih ⊢
          omega

/-- The offline client's `collectBetsToPot` moves exactly the round bets
into the round pot. -/
theorem clientCollectBetsToPot_money (ps : Seats) :
    (clientCollectBetsToPot ps).2 + seatSum (clientCollectBetsToPot ps).1 = seatSum ps := by
  unfold clientCollectBetsToPot
  induction ps with
  | nil => simp [seatSum]
  | cons op rest ih =>
      cases op with
      | none => simpa [seatSum] using ih
      | some p =>
          simp [seatSum] at ih ⊢
          omega

theorem getSeat_some (ps : Seats) (i : Int) (p : Player) (h : getSeat ps i = some p) :
    0 ≤ i ∧ ps.getD i.toNat none = some p := by
  unfold getSeat at h
  by_cases h0 : 0 ≤ i
  · rw [if_pos h0] at h
    exact ⟨h0, h⟩
  · rw [if_neg h0] at h
    exact Option.noConfusion h

theorem getD_lt_length (ps : Seats) (n : Nat) (p : Player)
    (h : ps.getD n none = some p) : n < ps.length := by
  induction ps generalizing n with
  | nil => simp [List.getD] at h
  | cons op rest ih =>
      cases n with
      | zero => simp
      | succ m =>
          simp only [List.getD_cons_succ] at h
          simpa using ih m h

theorem getD_set_self (ps : Seats) (n : Nat) (q : Option Player)
    (h : n < ps.length) : (ps.set n q).getD n none = q := by
  induction ps generalizing n with
  | nil => simp at h
  | cons op rest ih =>
      cases n with
      | zero => simp
      | succ m =>
          simp only [List.set, List.getD_cons_succ]
          exact ih m (by simpa using h)

theorem getSeat_setSeat_self (ps : Seats) (i : Int) (p : Player) (q : Option Player)
    (h : getSeat ps i = some p) : getSeat (setSeat ps i q) i = q := by
  obtain ⟨h0, hgd⟩ := getSeat_some ps i p h
  unfold getSeat setSeat
  rw [if_pos h0, if_pos h0, getD_set_self _ _ _ (getD_lt_length _ _ _ hgd)]

/-- After a server action on an occupied acting seat, the seat array is the
original one with the acting seat replaced by the mutated, has-acted
player. -/
theorem serverAction_seats (ps : Seats) (gs : GameState) (act : PokerAction)
    (amount : Int) (p : Player) (hseat : getSeat ps gs.currentPlayerIndex = some p) :
    (serverAction ps gs act amount).1 =
      setSeat ps gs.currentPlayerIndex
        (some { (serverApplyToPlayer p gs act amount gs.currentPlayerIndex).1 with
                  hasActed := true }) := by
  unfold serverAction
  dsimp only
  rw [hseat]
  dsimp only
  split <;> rfl

/-- The betting fields written by a server action survive the
round-completion branching untouched. -/
theorem serverAction_gs_fields (ps : Seats) (gs : GameState) (act : PokerAction)
    (amount : Int) (p : Player) (hseat : getSeat ps gs.currentPlayerIndex = some p) :
    (serverAction ps gs act amount).2.currentBet =
      (serverApplyToPlayer p gs act amount gs.currentPlayerIndex).2.1.currentBet ∧
    (serverAction ps gs act amount).2.lastRaiserIndex =
      (serverApplyToPlayer p gs act amount gs.currentPlayerIndex).2.1.lastRaiserIndex := by
  unfold serverAction
  dsimp only
  rw [hseat]
  dsimp only
  split <;> exact ⟨by simp [serverAddLog], by simp [serverAddLog]⟩

/-- Raise semantics of the server `action` handler. -/
theorem server_raise_spec (ps : Seats) (gs : GameState) (amount : Int) (p : Player)
    (hseat : getSeat ps gs.currentPlayerIndex = some p) :
    ∃ p', getSeat (serverAction ps gs PokerAction.raise amount).1
        gs.currentPlayerIndex = some p' ∧
      p'.hasActed = true ∧
      (serverAction ps gs PokerAction.raise amount).2.currentBet = p'.bet ∧
      (serverAction ps gs PokerAction.raise amount).2.lastRaiserIndex =
        some gs.currentPlayerIndex ∧
      0 ≤ p'.chips ∧ p'.bet - p.bet ≤ p.chips ∧
      (if p.chips ≤ gs.currentBet + amount - p.bet then
        p'.chips = 0 ∧ p'.status = PlayerStatus.ALL_IN ∧ p'.bet = p.bet + p.chips
       else
        p'.bet = gs.currentBet + amount ∧
          p'.chips = p.chips - (gs.currentBet + amount - p.bet)) := by
  have hseats := serverAction_seats ps gs PokerAction.raise amount p hseat
  have hcb := (serverAction_gs_fields ps gs PokerAction.raise amount p hseat).1
  have hlr := (serverAction_gs_fields ps gs PokerAction.raise amount p hseat).2
  by_cases hcase : p.chips ≤ gs.currentBet + amount - p.bet
  · simp only [serverApplyToPlayer, if_pos hcase] at hseats hcb hlr
    refine ⟨{ p with
                bet := p.bet + p.chips
                chips := 0
                status := PlayerStatus.ALL_IN
                hasActed := true }, ?_, rfl, ?_, ?_, ?_, ?_, ?_⟩
    · rw [hseats]
      exact getSeat_setSeat_self ps gs.currentPlayerIndex p _ hseat
    · rw [hcb]
    · rw [hlr]
    · simp
    · simp
    · rw [if_pos hcase]
      exact ⟨rfl, rfl, rfl⟩
  · simp only [serverApplyToPlayer, if_neg hcase] at hseats hcb hlr
    refine ⟨{ p with
                chips := p.chips - (gs.currentBet + amount - p.bet)
                bet := p.bet + (gs.currentBet + amount - p.bet)
                hasActed := true }, ?_, rfl, ?_, ?_, ?_, ?_, ?_⟩
    · rw [hseats]
      exact getSeat_setSeat_self ps gs.currentPlayerIndex p _ hseat
    · rw [hcb]
    · rw [hlr]
    · simp
      omega
    · simp
      omega
    · rw [if_neg hcase]
      constructor
      · simp
      · rfl

/-- Raise semantics of the offline client's `handleAction`. -/
theorem client_raise_spec (ps : Seats) (gs : GameState) (amount : Int) (p : Player)
    (hseat : getSeat ps gs.currentPlayerIndex = some p) :
    ∃ p', getSeat (clientHandleAction ps gs PokerAction.raise amount).1
        gs.currentPlayerIndex = some p' ∧
      p'.hasActed = true ∧
      (clientHandleAction ps gs PokerAction.raise amount).2.currentBet = p'.bet ∧
      (clientHandleAction ps gs PokerAction.raise amount).2.lastRaiserIndex =
        some gs.currentPlayerIndex ∧
      0 ≤ p'.chips ∧ p'.bet - p.bet ≤ p.chips ∧
      (if p.chips ≤ gs.currentBet + amount - p.bet then
        p'.chips = 0 ∧ p'.status = PlayerStatus.ALL_IN ∧ p'.bet = p.bet + p.chips
       else
        p'.bet = gs.currentBet + amount ∧
          p'.chips = p.chips - (gs.currentBet + amount - p.bet)) := by
  have hne : ¬ (gs.currentPlayerIndex = -1) := by
    have := (getSeat_some ps gs.currentPlayerIndex p hseat).1
    omega
  unfold clientHandleAction
  dsimp only
  rw [if_neg hne, hseat]
  dsimp only
  rw [if_neg (by simp : ¬ (PokerAction.raise = PokerAction.check ∧
    0 < gs.currentBet - p.bet))]
  dsimp only
  by_cases hcase : p.chips ≤ gs.currentBet + amount - p.bet
  · rw [if_pos hcase]
    refine ⟨{ p with
                chips := 0
                bet := p.bet + p.chips
                status := PlayerStatus.ALL_IN
                hasActed := true }, ?_, rfl, ?_, ?_, ?_, ?_, ?_⟩
    · exact getSeat_setSeat_self ps gs.currentPlayerIndex p _ hseat
    · simp
    · simp
    · simp
    · simp
    · rw [if_pos hcase]
      exact ⟨rfl, rfl, rfl⟩
  · rw [if_neg hcase]
    refine ⟨{ p with
                chips := p.chips - (gs.currentBet + amount - p.bet)
                bet := p.bet + (gs.currentBet + amount - p.bet)
                hasActed := true }, ?_, rfl, ?_, ?_, ?_, ?_, ?_⟩
    · exact getSeat_setSeat_self ps gs.currentPlayerIndex p _ hseat
    · simp
    · simp
    · simp
      omega
    · simp
      omega
    · rw [if_neg hcase]
      constructor
      · simp
      · rfl

/-! ### Claims C4-C7 and C10: the betting state machine -/

/-- Claim C4: money conservation.  Every player action processed by the
server `action` handler during PREFLOP..RIVER, the server's bet sweep at
round completion, and the offline client's `collectBetsToPot` all leave the
quantity pot + sum over seated players of (chips + current-round bet)
unchanged. -/
theorem c4_money_conservation (ps : Seats) (gs : GameState) (act : PokerAction)
    (amount : Int)
    (_hphase : gs.phase = GamePhase.PREFLOP ∨ gs.phase = GamePhase.FLOP ∨
      gs.phase = GamePhase.TURN ∨ gs.phase = GamePhase.RIVER) :
    money (serverAction ps gs act amount).1 (serverAction ps gs act amount).2 =
      money ps gs ∧
    (gs.pot + (sweepBets ps).2) + seatSum (sweepBets ps).1 = money ps gs ∧
    (gs.pot + (clientCollectBetsToPot ps).2) +
        seatSum (clientCollectBetsToPot ps).1 = money ps gs := by
  refine ⟨serverAction_money ps gs act amount, ?_, ?_⟩
  · have h := sweepBets_money ps
    unfold money
    omega
  · have h := clientCollectBetsToPot_money ps
    unfold money
    omega

/-- Witness for C4 at a concrete two-player preflop state and a call
action. -/
theorem c4_money_conservation_witness :
    (let ps : Seats := [some ⟨1, "A", 990, 10, PlayerStatus.PLAYING, [], true, true,
                          false, false⟩,
                        some ⟨2, "B", 980, 20, PlayerStatus.PLAYING, [], false, false,
                          true, false⟩, none, none, none, none, none, none, none]
     let gs : GameState := ⟨0, [], [], GamePhase.PREFLOP, 0, 0, 20, 20, some 1, [], []⟩
     (gs.phase = GamePhase.PREFLOP ∨ gs.phase = GamePhase.FLOP ∨
       gs.phase = GamePhase.TURN ∨ gs.phase = GamePhase.RIVER) ∧
     money (serverAction ps gs PokerAction.call 0).1
         (serverAction ps gs PokerAction.call 0).2 = money ps gs ∧
     (gs.pot + (sweepBets ps).2) + seatSum (sweepBets ps).1 = money ps gs ∧
     (gs.pot + (clientCollectBetsToPot ps).2) +
         seatSum (clientCollectBetsToPot ps).1 = money ps gs) :=
  ⟨by decide,
   c4_money_conservation _ _ PokerAction.call 0 (by decide)⟩

/-- Claim C5: the server applies an illegal check instead of rejecting it.
In a concrete preflop heads-up state where the acting seat owes 10 chips to
match the current bet of 20, the server `action` handler processes `check`
as a normal action: it marks the seat has-acted, advances the turn pointer
to seat 1 and appends a plain "checks." log entry, none of which the claim
permits.  The offline client's `handleAction`, by contrast, leaves the whole
state untouched (although it reports no error either). -/
theorem c5_server_applies_illegal_check :
    (let ps : Seats := [some ⟨1, "A", 990, 10, PlayerStatus.PLAYING, [], true, true,
                          false, false⟩,
                        some ⟨2, "B", 980, 20, PlayerStatus.PLAYING, [], false, false,
                          true, false⟩, none, none, none, none, none, none, none]
     let gs : GameState := ⟨0, [], [], GamePhase.PREFLOP, 0, 0, 20, 20, some 1, [], []⟩
     ((getSeat ps 0).map (fun p => p.bet)).getD 0 < gs.currentBet ∧
     ((getSeat (serverAction ps gs PokerAction.check 0).1 0).map
         (fun p => p.hasActed)) = some true ∧
     (serverAction ps gs PokerAction.check 0).2.currentPlayerIndex = 1 ∧
     (serverAction ps gs PokerAction.check 0).2.logs = ["A checks."] ∧
     clientHandleAction ps gs PokerAction.check 0 = (ps, gs)) := by
  decide

/-- Claim C6: the server posts blinds without capping at the stack.  A seat
with 5 chips posting the small blind of 10 is left with -5 chips, still
PLAYING, on the server's `startGame` path, while the offline client's
`startNewHand` deducts min(blind, stack) = 5, zeroes the stack and marks the
seat ALL_IN as the claim requires. -/
theorem c6_server_blind_overdraft :
    ((serverPostBlinds
        [some ⟨7, "S", 5, 0, PlayerStatus.PLAYING, [], false, false, false, false⟩,
         some ⟨2, "B", 980, 0, PlayerStatus.PLAYING, [], false, false, false, false⟩,
         none, none, none, none, none, none, none] 0 1).getD 0 none).map
        (fun p => (p.chips, p.bet, p.status)) =
      some (-5, 10, PlayerStatus.PLAYING) ∧
    clientPostSmallBlind
        ⟨7, "S", 5, 0, PlayerStatus.PLAYING, [], false, false, false, false⟩ =
      ⟨7, "S", 0, 5, PlayerStatus.ALL_IN, [], false, true, false, false⟩ := by
  decide

/-- Claim C7: raise semantics.  For a raise by the occupied acting seat, on
both engine copies: if the chips needed to reach the target total bet
(current-bet-to-match + amount) meet or exceed the stack, the seat commits
exactly its entire stack (chips become 0, hence never negative, and the
total newly committed, bet' - bet, never exceeds the original stack) and its
status becomes ALL_IN; otherwise the bet is set to the target.  In both
cases current-bet-to-match becomes the seat's new bet and the last aggressor
becomes this seat. -/
theorem c7_raise_allin_semantics (ps : Seats) (gs : GameState) (amount : Int)
    (p : Player) (hseat : getSeat ps gs.currentPlayerIndex = some p) :
    (∃ p', getSeat (serverAction ps gs PokerAction.raise amount).1
        gs.currentPlayerIndex = some p' ∧
      p'.hasActed = true ∧
      (serverAction ps gs PokerAction.raise amount).2.currentBet = p'.bet ∧
      (serverAction ps gs PokerAction.raise amount).2.lastRaiserIndex =
        some gs.currentPlayerIndex ∧
      0 ≤ p'.chips ∧ p'.bet - p.bet ≤ p.chips ∧
      (if p.chips ≤ gs.currentBet + amount - p.bet then
        p'.chips = 0 ∧ p'.status = PlayerStatus.ALL_IN ∧ p'.bet = p.bet + p.chips
       else
        p'.bet = gs.currentBet + amount ∧
          p'.chips = p.chips - (gs.currentBet + amount - p.bet))) ∧
    (∃ q', getSeat (clientHandleAction ps gs PokerAction.raise amount).1
        gs.currentPlayerIndex = some q' ∧
      q'.hasActed = true ∧
      (clientHandleAction ps gs PokerAction.raise amount).2.currentBet = q'.bet ∧
      (clientHandleAction ps gs PokerAction.raise amount).2.lastRaiserIndex =
        some gs.currentPlayerIndex ∧
      0 ≤ q'.chips ∧ q'.bet - p.bet ≤ p.chips ∧
      (if p.chips ≤ gs.currentBet + amount - p.bet then
        q'.chips = 0 ∧ q'.status = PlayerStatus.ALL_IN ∧ q'.bet = p.bet + p.chips
       else
        q'.bet = gs.currentBet + amount ∧
          q'.chips = p.chips - (gs.currentBet + amount - p.bet))) :=
  ⟨server_raise_spec ps gs amount p hseat, client_raise_spec ps gs amount p hseat⟩

/-- Witness for C7 at a concrete state: stack 990, bet 10, current bet 20,
raise by 40 — a non-all-in raise to 60 on both engines. -/
theorem c7_raise_allin_semantics_witness :
    (getSeat [some ⟨1, "A", 990, 10, PlayerStatus.PLAYING, [], true, true,
                false, false⟩,
              some ⟨2, "B", 980, 20, PlayerStatus.PLAYING, [], false, false,
                true, false⟩, none, none, none, none, none, none, none]
       (⟨0, [], [], GamePhase.PREFLOP, 0, 0, 20, 20, some 1, [], []⟩ :
         GameState).currentPlayerIndex =
       some ⟨1, "A", 990, 10, PlayerStatus.PLAYING, [], true, true, false, false⟩) ∧
    ((∃ p', getSeat (serverAction
        [some ⟨1, "A", 990, 10, PlayerStatus.PLAYING, [], true, true, false, false⟩,
         some ⟨2, "B", 980, 20, PlayerStatus.PLAYING, [], false, false, true, false⟩,
         none, none, none, none, none, none, none]
        ⟨0, [], [], GamePhase.PREFLOP, 0, 0, 20, 20, some 1, [], []⟩
        PokerAction.raise 40).1 0 = some p' ∧ p'.bet = 60 ∧ p'.chips = 940) ∧
     (∃ q', getSeat (clientHandleAction
        [some ⟨1, "A", 990, 10, PlayerStatus.PLAYING, [], true, true, false, false⟩,
         some ⟨2, "B", 980, 20, PlayerStatus.PLAYING, [], false, false, true, false⟩,
         none, none, none, none, none, none, none]
        ⟨0, [], [], GamePhase.PREFLOP, 0, 0, 20, 20, some 1, [], []⟩
        PokerAction.raise 40).1 0 = some q' ∧ q'.bet = 60 ∧ q'.chips = 940)) := by
  refine ⟨by decide, ?_⟩
  obtain ⟨hs, hc⟩ := c7_raise_allin_semantics
    [some ⟨1, "A", 990, 10, PlayerStatus.PLAYING, [], true, true, false, false⟩,
     some ⟨2, "B", 980, 20, PlayerStatus.PLAYING, [], false, false, true, false⟩,
     none, none, none, none, none, none, none]
    ⟨0, [], [], GamePhase.PREFLOP, 0, 0, 20, 20, some 1, [], []⟩ 40
    ⟨1, "A", 990, 10, PlayerStatus.PLAYING, [], true, true, false, false⟩ (by decide)
  obtain ⟨p', hp1, _, _, _, _, _, hp7⟩ := hs
  obtain ⟨q', hq1, _, _, _, _, _, hq7⟩ := hc
  rw [if_neg (by decide)] at hp7 hq7
  refine ⟨⟨p', hp1, ?_, ?_⟩, ⟨q', hq1, ?_, ?_⟩⟩
  · rw [hp7.1]
    decide
  · rw [hp7.2]
    decide
  · rw [hq7.1]
    decide
  · rw [hq7.2]
    decide

/-- Claim C10: the server's `sit` handler is a complete no-op when the
requested seat is already occupied — the seat array and every field of the
game state are returned unchanged. -/
theorem c10_sit_occupied_noop (ps : Seats) (gs : GameState) (seatIndex buyIn : Int)
    (nm : String) (sockId : Nat) (p : Player)
    (hocc : getSeat ps seatIndex = some p) :
    serverSit ps gs seatIndex buyIn nm sockId = (ps, gs) := by
  unfold serverSit
  rw [hocc]

/-- Witness for C10: sitting at occupied seat 0 changes nothing. -/
theorem c10_sit_occupied_noop_witness :
    (getSeat [some ⟨1, "A", 990, 10, PlayerStatus.PLAYING, [], true, true,
                false, false⟩, none]
       0 = some ⟨1, "A", 990, 10, PlayerStatus.PLAYING, [], true, true, false, false⟩) ∧
    serverSit [some ⟨1, "A", 990, 10, PlayerStatus.PLAYING, [], true, true,
                false, false⟩, none]
        ⟨0, [], [], GamePhase.IDLE, -1, -1, 20, 0, none, [], []⟩ 0 500 "X" 9 =
      ([some ⟨1, "A", 990, 10, PlayerStatus.PLAYING, [], true, true, false, false⟩,
        none],
       ⟨0, [], [], GamePhase.IDLE, -1, -1, 20, 0, none, [], []⟩) :=
  ⟨by decide,
   c10_sit_occupied_noop _ _ 0 500 "X" 9
     ⟨1, "A", 990, 10, PlayerStatus.PLAYING, [], true, true, false, false⟩ (by decide)⟩


theorem activePlayers_cons_of_active (q : Player) (rest : Seats)
    (h : isActiveSeat (some q) = true) :
    activePlayers (some q :: rest) = q :: activePlayers rest := by
  unfold activePlayers
  rw [List.filterMap_cons]
  simp [h]

theorem activePlayers_cons_of_inactive (op : Option Player) (rest : Seats)
    (h : isActiveSeat op = false) :
    activePlayers (op :: rest) = activePlayers rest := by
  unfold activePlayers
  rw [List.filterMap_cons]
  simp [h]

theorem mem_activePlayers_of_getD (ps : Seats) (n : Nat) (p : Player)
    (hg : ps.getD n none = some p) (ha : isActiveSeat (some p) = true) :
    p ∈ activePlayers ps := by
  induction ps generalizing n with
  | nil => simp [List.getD] at hg
  | cons op rest ih =>
      cases n with
      | zero =>
          rw [List.getD_cons_zero] at hg
          subst hg
          rw [activePlayers_cons_of_active p rest ha]
          exact List.mem_cons_self p _
      | succ m =>
          have hrest := ih m (by simpa using hg)
          by_cases hop : isActiveSeat op = true
          · cases op with
            | none => simp [isActiveSeat] at hop
            | some q =>
                rw [activePlayers_cons_of_active q rest hop]
                exact List.mem_cons_of_mem q hrest
          · rw [activePlayers_cons_of_inactive op rest (by simpa using hop)]
            exact hrest

theorem getD_of_mem_activePlayers (ps : Seats) (p : Player)
    (h : p ∈ activePlayers ps) :
    ∃ n, ps.getD n none = some p ∧ isActiveSeat (some p) = true := by
  induction ps with
  | nil => simp [activePlayers] at h
  | cons op rest ih =>
      by_cases hop : isActiveSeat op = true
      · cases op with
        | none => simp [isActiveSeat] at hop
        | some q =>
            rw [activePlayers_cons_of_active q rest hop] at h
            rcases List.mem_cons.mp h with hpq | hmem
            · subst hpq
              exact ⟨0, by simp, hop⟩
            · rcases ih hmem with ⟨n, hg, ha⟩
              exact ⟨n + 1, by simpa using hg, ha⟩
      · rw [activePlayers_cons_of_inactive op rest (by simpa using hop)] at h
        rcases ih h with ⟨n, hg, ha⟩
        exact ⟨n + 1, by simpa using hg, ha⟩

theorem firstActiveIdxAux_spec (ps : Seats) :
    ∀ (k i : Nat) (p : Player), (activePlayers ps).length = 1 →
      ps.getD i none = some p → isActiveSeat (some p) = true →
      firstActiveIdxAux ps k = some (k + i) := by
  induction ps with
  | nil =>
      intro k i p _ hg _
      simp [List.getD] at hg
  | cons op rest ih =>
      intro k i p h1 hg ha
      by_cases hop : isActiveSeat op = true
      · cases i with
        | zero =>
            simp [firstActiveIdxAux, hop]
        | succ m =>
            exfalso
            cases op with
            | none => simp [isActiveSeat] at hop
            | some q =>
                rw [activePlayers_cons_of_active q rest hop] at h1
                have hz : (activePlayers rest).length = 0 := by simpa using h1
                have hmem := mem_activePlayers_of_getD rest m p (by simpa using hg) ha
                rw [List.length_eq_zero.mp hz] at hmem
                exact List.not_mem_nil p hmem
      · cases i with
        | zero =>
            rw [List.getD_cons_zero] at hg
            subst hg
            exact absurd ha hop
        | succ m =>
            rw [activePlayers_cons_of_inactive op rest (by simpa using hop)] at h1
            have hrec := ih (k + 1) m p h1 (by simpa using hg) ha
            unfold firstActiveIdxAux
            rw [if_neg (by simpa using hop), hrec]
            congr 1
            omega

theorem getD_set_ne (ps : Seats) (n m : Nat) (q : Option Player) (h : n ≠ m) :
    (ps.set n q).getD m none = ps.getD m none := by
  induction ps generalizing n m with
  | nil => simp [List.set]
  | cons op rest ih =>
      cases n with
      | zero =>
          cases m with
          | zero => exact absurd rfl h
          | succ k => simp [List.set]
      | succ n' =>
          cases m with
          | zero => simp [List.set]
          | succ m' =>
              simp only [List.set, List.getD_cons_succ]
              exact ih n' m' (by omega)

theorem getD_sweep (ps : Seats) (i : Nat) :
    (sweepBets ps).1.getD i none =
      (ps.getD i none).map (fun p => { p with bet := 0, hasActed := false }) := by
  unfold sweepBets
  induction ps generalizing i with
  | nil => simp [List.getD]
  | cons op rest ih =>
      cases i with
      | zero => cases op <;> simp
      | succ m => simpa using ih m

theorem activeSeat_sweep (p : Player) :
    isActiveSeat (some { p with bet := 0, hasActed := false }) = isActiveSeat (some p) := rfl

theorem activePlayers_map_sweep (ps : Seats) :
    activePlayers (ps.map (Option.map
      (fun p => { p with bet := 0, hasActed := false }))) =
      (activePlayers ps).map (fun p => { p with bet := 0, hasActed := false }) := by
  induction ps with
  | nil => simp [activePlayers]
  | cons op rest ih =>
      cases op with
      | none =>
          simp only [List.map_cons, Option.map_none']
          rw [activePlayers_cons_of_inactive _ _ (by simp [isActiveSeat]),
              activePlayers_cons_of_inactive _ _ (by simp [isActiveSeat])]
          exact ih
      | some p =>
          simp only [List.map_cons, Option.map_some']
          cases hA : isActiveSeat (some p) with
          | true =>
              rw [activePlayers_cons_of_active _ _ ((activeSeat_sweep p).trans hA),
                  activePlayers_cons_of_active _ _ hA]
              simp only [List.map_cons]
              rw [ih]
          | false =>
              rw [activePlayers_cons_of_inactive _ _ ((activeSeat_sweep p).trans hA),
                  activePlayers_cons_of_inactive _ _ hA]
              exact ih

theorem activePlayers_sweep (ps : Seats) :
    activePlayers (sweepBets ps).1 =
      (activePlayers ps).map (fun p => { p with bet := 0, hasActed := false }) := by
  unfold sweepBets
  dsimp only
  exact activePlayers_map_sweep ps

/-- Claim C8 (amended): the single-survivor settlement lives in the deferred
`nextPhase`, not in the action handler.  When `nextPhase` runs with exactly
one non-folded, non-busted seat, the hand ends immediately: the survivor is
credited the settled pot plus all swept round bets, the phase becomes
SHOWDOWN, the turn pointer is cleared to -1, and no community card is dealt;
every other seat is merely swept. -/
theorem c8_single_survivor (ps : Seats) (gs : GameState)
    (h1 : (activePlayers ps).length = 1) :
    (serverNextPhase ps gs).2.phase = GamePhase.SHOWDOWN ∧
    (serverNextPhase ps gs).2.currentPlayerIndex = -1 ∧
    (serverNextPhase ps gs).2.pot = 0 ∧
    (serverNextPhase ps gs).2.communityCards = gs.communityCards ∧
    (serverNextPhase ps gs).2.deck = gs.deck ∧
    (∀ i p, ps.getD i none = some p → isActiveSeat (some p) = true →
      (serverNextPhase ps gs).1.getD i none =
        some { p with chips := p.chips + (gs.pot + (sweepBets ps).2),
                      bet := 0, hasActed := false }) ∧
    (∀ i p, ps.getD i none = some p → isActiveSeat (some p) = false →
      (serverNextPhase ps gs).1.getD i none =
        some { p with bet := 0, hasActed := false }) := by
  obtain ⟨p0, hp0⟩ : ∃ p0, activePlayers ps = [p0] := by
    cases hap : activePlayers ps with
    | nil =>
        rw [hap] at h1
        simp at h1
    | cons a t =>
        rw [hap] at h1
        refine ⟨a, ?_⟩
        have ht : t.length = 0 := by simpa using h1
        rw [List.length_eq_zero.mp ht]
  obtain ⟨i0, hg0, ha0⟩ := getD_of_mem_activePlayers ps p0
    (by rw [hp0]; exact List.mem_cons_self _ _)
  have hsw1 : (activePlayers (sweepBets ps).1).length = 1 := by
    rw [activePlayers_sweep, List.length_map]
    exact h1
  have hgsw : (sweepBets ps).1.getD i0 none =
      some { p0 with bet := 0, hasActed := false } := by
    rw [getD_sweep, hg0]
    rfl
  have hfind : firstActiveIdx (sweepBets ps).1 = some i0 := by
    unfold firstActiveIdx
    have := firstActiveIdxAux_spec (sweepBets ps).1 0 i0
      { p0 with bet := 0, hasActed := false } hsw1 hgsw
      ((activeSeat_sweep p0).trans ha0)
    simpa using this
  have hlen : i0 < (sweepBets ps).1.length := getD_lt_length _ _ _ hgsw
  unfold serverNextPhase
  dsimp only
  rw [if_pos hsw1]
  unfold serverHandleShowdownFolded
  rw [hfind]
  dsimp only
  rw [hgsw]
  dsimp only
  refine ⟨rfl, rfl, rfl, by simp [serverAddLog], by simp [serverAddLog], ?_, ?_⟩
  · intro i p hg ha
    have hieq : i = i0 := by
      have hgswi : (sweepBets ps).1.getD i none =
          some { p with bet := 0, hasActed := false } := by
        rw [getD_sweep, hg]
        rfl
      have := firstActiveIdxAux_spec (sweepBets ps).1 0 i
        { p with bet := 0, hasActed := false } hsw1 hgswi
        ((activeSeat_sweep p).trans ha)
      rw [firstActiveIdx] at hfind
      rw [this] at hfind
      have h00 : (0 + i : Nat) = i0 := Option.some_inj.mp hfind
      omega
    subst hieq
    have hpeq : p = p0 := by
      rw [hg] at hg0
      exact Option.some_inj.mp hg0
    subst hpeq
    rw [getD_set_self _ _ _ hlen]
  · intro i p hg ha
    have hine : i0 ≠ i := by
      intro he
      subst he
      rw [hg] at hg0
      have hpp : p = p0 := Option.some_inj.mp hg0
      rw [← hpp] at ha0
      rw [ha0] at ha
      exact Bool.noConfusion ha
    rw [getD_set_ne _ _ _ _ hine, getD_sweep, hg]
    rfl

/-- Claim C8 counterexample: an action that leaves exactly one non-folded,
non-busted seat does not by itself end the hand.  Heads-up preflop, the
small blind folds: one active seat remains, yet the phase is still PREFLOP,
the turn is handed to the survivor (who still owes action under the
round-completion test), the pot is 0 and the survivor's stack is not
credited. -/
theorem c8_counterexample :
    (let ps : Seats := [some ⟨1, "A", 990, 10, PlayerStatus.PLAYING, [], true,
                          true, false, false⟩,
                        some ⟨2, "B", 980, 20, PlayerStatus.PLAYING, [], false,
                          false, true, false⟩, none, none, none, none, none,
                        none, none]
     let gs : GameState := ⟨0, [], [], GamePhase.PREFLOP, 0, 0, 20, 20,
       some 1, [], []⟩
     (activePlayers (serverAction ps gs PokerAction.fold 0).1).length = 1 ∧
     (serverAction ps gs PokerAction.fold 0).2.phase = GamePhase.PREFLOP ∧
     (serverAction ps gs PokerAction.fold 0).2.currentPlayerIndex = 1 ∧
     (serverAction ps gs PokerAction.fold 0).2.pot = 0 ∧
     ((serverAction ps gs PokerAction.fold 0).1.getD 1 none).map
        (fun p => p.chips) = some 980) := by
  decide

/-- Witness for C8 at a concrete post-fold heads-up state. -/
theorem c8_single_survivor_witness :
    (let ps : Seats := [some ⟨1, "A", 990, 10, PlayerStatus.FOLDED, [], true,
                          true, false, true⟩,
                        some ⟨2, "B", 980, 20, PlayerStatus.PLAYING, [], false,
                          false, true, false⟩, none, none, none, none, none,
                        none, none]
     let gs : GameState := ⟨0, [], [], GamePhase.PREFLOP, 1, 0, 20, 20,
       some 1, [], []⟩
     (activePlayers ps).length = 1 ∧
     ((serverNextPhase ps gs).2.phase = GamePhase.SHOWDOWN ∧
      (serverNextPhase ps gs).2.currentPlayerIndex = -1 ∧
      (serverNextPhase ps gs).2.pot = 0 ∧
      (serverNextPhase ps gs).2.communityCards = gs.communityCards ∧
      (serverNextPhase ps gs).2.deck = gs.deck ∧
      (∀ i p, ps.getD i none = some p → isActiveSeat (some p) = true →
        (serverNextPhase ps gs).1.getD i none =
          some { p with chips := p.chips + (gs.pot + (sweepBets ps).2),
                        bet := 0, hasActed := false }) ∧
      (∀ i p, ps.getD i none = some p → isActiveSeat (some p) = false →
        (serverNextPhase ps gs).1.getD i none =
          some { p with bet := 0, hasActed := false }))) :=
  ⟨by decide, c8_single_survivor _ _ (by decide)⟩

theorem insertEvalDesc_perm (e : EvalEntry) (l : List EvalEntry) :
    (insertEvalDesc e l).Perm (e :: l) := by
  induction l with
  | nil => simp [insertEvalDesc]
  | cons x xs ih =>
      by_cases h : x.score ≤ e.score
      · simp [insertEvalDesc, h]
      · simpa [insertEvalDesc, h] using
          ((ih.cons x).trans (List.Perm.swap e x xs))

theorem sortEvalsDesc_perm (l : List EvalEntry) : (sortEvalsDesc l).Perm l := by
  induction l with
  | nil => simp [sortEvalsDesc]
  | cons x xs ih =>
      exact (insertEvalDesc_perm x (sortEvalsDesc xs)).trans (ih.cons x)

theorem insertEvalDesc_pairwise (e : EvalEntry) (l : List EvalEntry)
    (h : l.Pairwise (fun a b => b.score ≤ a.score)) :
    (insertEvalDesc e l).Pairwise (fun a b => b.score ≤ a.score) := by
  induction l with
  | nil => simp [insertEvalDesc]
  | cons x xs ih =>
      rcases List.pairwise_cons.mp h with ⟨hx, hxs⟩
      by_cases hc : x.score ≤ e.score
      · rw [insertEvalDesc, if_pos hc]
        refine List.pairwise_cons.mpr ⟨?_, h⟩
        intro b hb
        rcases List.mem_cons.mp hb with hbx | hbxs
        · subst hbx
          exact hc
        · exact le_trans (hx b hbxs) hc
      · rw [insertEvalDesc, if_neg hc]
        refine List.pairwise_cons.mpr ⟨?_, ih hxs⟩
        intro b hb
        have := (insertEvalDesc_perm e xs).mem_iff.mp hb
        rcases List.mem_cons.mp this with hbe | hbxs
        · subst hbe
          exact le_of_not_le hc
        · exact hx b hbxs

theorem sortEvalsDesc_pairwise (l : List EvalEntry) :
    (sortEvalsDesc l).Pairwise (fun a b => b.score ≤ a.score) := by
  induction l with
  | nil => simp [sortEvalsDesc]
  | cons x xs ih => exact insertEvalDesc_pairwise x (sortEvalsDesc xs) ih

/-- The head of the sorted evaluation list realizes the maximum score. -/
theorem sortEvalsDesc_head_max (l : List EvalEntry) (d : EvalEntry) (hne : l ≠ []) :
    ((sortEvalsDesc l).headD d) ∈ l ∧
      ∀ e ∈ l, e.score ≤ ((sortEvalsDesc l).headD d).score := by
  have hperm := sortEvalsDesc_perm l
  have hpw := sortEvalsDesc_pairwise l
  cases hs : sortEvalsDesc l with
  | nil =>
      exfalso
      have := hperm.length_eq
      rw [hs] at this
      cases l with
      | nil => exact hne rfl
      | cons a t => simp at this
  | cons h0 t =>
      rw [hs] at hperm hpw
      constructor
      · exact hperm.mem_iff.mp (List.mem_cons_self h0 t)
      · intro e he
        rcases List.mem_cons.mp (hperm.mem_iff.mpr he) with hh | ht
        · subst hh
          simp
        · exact (List.pairwise_cons.mp hpw).1 e ht

theorem mem_candsAux (ps : Seats) :
    ∀ (k m : Nat) (p : Player),
      (m, p) ∈ candsAux ps k ↔
        ∃ j, m = k + j ∧ ps.getD j none = some p ∧
          isActiveSeat (some p) = true := by
  induction ps with
  | nil =>
      intro k m p
      simp [candsAux, List.getD]
  | cons op rest ih =>
      intro k m p
      cases op with
      | none =>
          rw [candsAux]
          simp only [List.nil_append]
          rw [ih (k + 1) m p]
          constructor
          · rintro ⟨j, hm, hg, ha⟩
            exact ⟨j + 1, by omega, by simpa using hg, ha⟩
          · rintro ⟨j, hm, hg, ha⟩
            cases j with
            | zero =>
                rw [List.getD_cons_zero] at hg
                exact Option.noConfusion hg
            | succ j' =>
                exact ⟨j', by omega, by simpa using hg, ha⟩
      | some q =>
          by_cases hq : q.status ≠ PlayerStatus.FOLDED ∧ q.status ≠ PlayerStatus.BUSTED
          · rw [candsAux, if_pos hq]
            simp only [List.singleton_append]
            rw [List.mem_cons, ih (k + 1) m p]
            constructor
            · rintro (heq | ⟨j, hm, hg, ha⟩)
              · rcases Prod.mk.injEq .. ▸ heq with ⟨hm, hp⟩
                subst hm
                subst hp
                exact ⟨0, by omega, by simp, by simp [isActiveSeat]; exact hq⟩
              · exact ⟨j + 1, by omega, by simpa using hg, ha⟩
            · rintro ⟨j, hm, hg, ha⟩
              cases j with
              | zero =>
                  rw [List.getD_cons_zero] at hg
                  left
                  rw [Option.some_inj.mp hg]
                  simp [hm]
              | succ j' =>
                  exact Or.inr ⟨j', by omega, by simpa using hg, ha⟩
          · rw [candsAux, if_neg hq]
            simp only [List.nil_append]
            rw [ih (k + 1) m p]
            constructor
            · rintro ⟨j, hm, hg, ha⟩
              exact ⟨j + 1, by omega, by simpa using hg, ha⟩
            · rintro ⟨j, hm, hg, ha⟩
              cases j with
              | zero =>
                  rw [List.getD_cons_zero] at hg
                  exfalso
                  rw [Option.some_inj.mp hg] at hq
                  simp only [isActiveSeat] at ha
                  exact hq (by simpa using ha)
              | succ j' =>
                  exact ⟨j', by omega, by simpa using hg, ha⟩

theorem candsAux_ge (ps : Seats) :
    ∀ k, ∀ x ∈ candsAux ps k, k ≤ x.1 := by
  induction ps with
  | nil =>
      intro k x hx
      simp [candsAux] at hx
  | cons op rest ih =>
      intro k x hx
      cases op with
      | none =>
          rw [candsAux] at hx
          simp only [List.nil_append] at hx
          exact le_trans (by omega) (ih (k + 1) x hx)
      | some q =>
          by_cases hq : q.status ≠ PlayerStatus.FOLDED ∧ q.status ≠ PlayerStatus.BUSTED
          · rw [candsAux, if_pos hq] at hx
            simp only [List.singleton_append, List.mem_cons] at hx
            rcases hx with hx | hx
            · subst hx
              exact le_refl k
            · exact le_trans (by omega) (ih (k + 1) x hx)
          · rw [candsAux, if_neg hq] at hx
            simp only [List.nil_append] at hx
            exact le_trans (by omega) (ih (k + 1) x hx)

theorem candsAux_pairwise (ps : Seats) :
    ∀ k, (candsAux ps k).Pairwise (fun a b => a.1 < b.1) := by
  induction ps with
  | nil =>
      intro k
      simp [candsAux]
  | cons op rest ih =>
      intro k
      cases op with
      | none =>
          rw [candsAux]
          simpa using ih (k + 1)
      | some q =>
          by_cases hq : q.status ≠ PlayerStatus.FOLDED ∧ q.status ≠ PlayerStatus.BUSTED
          · rw [candsAux, if_pos hq]
            simp only [List.singleton_append]
            refine List.pairwise_cons.mpr ⟨?_, ih (k + 1)⟩
            intro b hb
            have := candsAux_ge rest (k + 1) b hb
            omega
          · rw [candsAux, if_neg hq]
            simpa using ih (k + 1)

/-- Setting a seat, then reading it back: the write lands iff the index is
in range. -/
theorem getD_set_total (ps : Seats) (n : Nat) (q : Option Player) :
    (ps.set n q).getD n none =
      if n < ps.length then q else ps.getD n none := by
  induction ps generalizing n with
  | nil => simp [List.set]
  | cons op rest ih =>
      cases n with
      | zero => simp
      | succ m =>
          simp only [List.set, List.getD_cons_succ, List.length_cons]
          rw [ih m]
          by_cases h : m < rest.length
          · rw [if_pos h, if_pos (by omega : m + 1 < rest.length + 1)]
          · rw [if_neg h, if_neg (by omega : ¬ (m + 1 < rest.length + 1))]

/-- Effect of the winner-credit fold on an arbitrary seat: a seat whose
index occurs among the (distinct) winner indices is credited once; every
other seat is untouched. -/
theorem foldl_credit (ws : List EvalEntry) (ps : Seats) (amt : Int)
    (hnd : (ws.map (fun e => e.index)).Nodup) (j : Nat) :
    (ws.foldl (fun acc w => acc.set w.index (match acc.getD w.index none with
        | some p => some { p with chips := p.chips + amt }
        | none => none)) ps).getD j none =
      if ∃ w ∈ ws, w.index = j then
        (ps.getD j none).map (fun p => { p with chips := p.chips + amt })
      else ps.getD j none := by
  induction ws generalizing ps with
  | nil => simp
  | cons w rest ih =>
      simp only [List.map_cons, List.nodup_cons] at hnd
      rw [List.foldl_cons]
      rw [ih _ hnd.2]
      by_cases hj : w.index = j
      · subst hj
        have hnotin : ¬ ∃ w' ∈ rest, w'.index = w.index := by
          rintro ⟨w', hw', he⟩
          exact hnd.1 (by rw [← he]; exact List.mem_map_of_mem _ hw')
        rw [if_neg hnotin, if_pos ⟨w, List.mem_cons_self w rest, rfl⟩]
        cases hg : ps.getD w.index none with
        | none =>
            rw [getD_set_total]
            by_cases hlt : w.index < ps.length
            · rw [if_pos hlt]
              rfl
            · rw [if_neg hlt, hg]
              rfl
        | some p =>
            have hlt := getD_lt_length ps w.index p hg
            rw [getD_set_total, if_pos hlt]
            rfl
      · by_cases hrest : ∃ w' ∈ rest, w'.index = j
        · rw [if_pos hrest, if_pos ?side]
          case side =>
            rcases hrest with ⟨w', hw', he⟩
            exact ⟨w', List.mem_cons_of_mem w hw', he⟩
          rw [getD_set_ne _ _ _ _ hj]
        · rw [if_neg hrest, if_neg ?side]
          case side =>
            rintro ⟨w', hw', he⟩
            rcases List.mem_cons.mp hw' with hww | hwr
            · subst hww
              exact hj he
            · exact hrest ⟨w', hwr, he⟩
          rw [getD_set_ne _ _ _ _ hj]

/-- Unfolding of `serverComputeWinners` when at least one candidate exists. -/
theorem serverComputeWinners_eq (ps : Seats) (gs : GameState)
    (h : (showdownEvals ps gs).isEmpty = false) :
    serverComputeWinners ps gs =
      ((winnerEntries ps gs).foldl (fun acc w =>
        acc.set w.index (match acc.getD w.index none with
          | some p => some { p with
              chips := p.chips + Int.fdiv gs.pot ((winnerEntries ps gs).length : Int) }
          | none => none)) ps,
       serverAddLog
         { gs with
             winners := gs.winners ++ (winnerEntries ps gs).map (fun w =>
               { playerId := w.playerId, handName := w.name,
                 amount := Int.fdiv gs.pot ((winnerEntries ps gs).length : Int) })
             pot := 0
             currentPlayerIndex := -1 } "End of Hand.") := by
  unfold serverComputeWinners
  rw [if_neg (by simp [h])]

/-- The winner entries carry pairwise-distinct seat indices. -/
theorem winnerEntries_index_nodup (ps : Seats) (gs : GameState) :
    ((winnerEntries ps gs).map (fun e => e.index)).Nodup := by
  have h0 : ((candsAux ps 0).map Prod.fst).Pairwise (fun a b => a < b) :=
    List.Pairwise.map Prod.fst (fun a b h => h) (candsAux_pairwise ps 0)
  have h1 : ((showdownEvals ps gs).map (fun e => e.index)).Nodup := by
    have hmapE : (showdownEvals ps gs).map (fun e => e.index) =
        (candsAux ps 0).map Prod.fst := by
      unfold showdownEvals
      rw [List.map_map]
      exact List.map_congr_left (fun ip _ => rfl)
    rw [hmapE]
    exact h0.imp (fun h => Nat.ne_of_lt h)
  have h2 : ((sortEvalsDesc (showdownEvals ps gs)).map (fun e => e.index)).Nodup :=
    (((sortEvalsDesc_perm (showdownEvals ps gs)).map (fun e => e.index)).nodup_iff).mpr h1
  have hsub : ((winnerEntries ps gs).map (fun e => e.index)).Sublist
      ((sortEvalsDesc (showdownEvals ps gs)).map (fun e => e.index)) := by
    unfold winnerEntries
    exact List.Sublist.map (fun e : EvalEntry => e.index) (List.filter_sublist _)
  exact List.Nodup.sublist hsub h2

/-- Claim C9: at showdown with at least one contender, the entries tied at
the highest evaluated score split the pot by floor division: each tied
seat's stack is credited exactly floor(pot / n), one winner record with that
amount is appended per tied entry, the pot is zeroed, the turn pointer is
cleared, and every other seat's chips are untouched (the pot-mod-n remainder
is not distributed to any seat). -/
theorem c9_showdown_split (ps : Seats) (gs : GameState)
    (hne : candsAux ps 0 ≠ []) :
    (∃ e ∈ showdownEvals ps gs, e.score = bestScoreOf ps gs) ∧
    (∀ e ∈ showdownEvals ps gs, e.score ≤ bestScoreOf ps gs) ∧
    0 < (winnerEntries ps gs).length ∧
    (winnerEntries ps gs).length = ((showdownEvals ps gs).filter
      (fun e => decide (e.score = bestScoreOf ps gs))).length ∧
    (serverComputeWinners ps gs).2.pot = 0 ∧
    (serverComputeWinners ps gs).2.currentPlayerIndex = -1 ∧
    (serverComputeWinners ps gs).2.winners = gs.winners ++
      (winnerEntries ps gs).map (fun w =>
        { playerId := w.playerId, handName := w.name,
          amount := Int.fdiv gs.pot ((winnerEntries ps gs).length : Int) }) ∧
    (∀ j : Nat,
      (serverComputeWinners ps gs).1.getD j none =
        if ∃ e ∈ showdownEvals ps gs, e.score = bestScoreOf ps gs ∧ e.index = j then
          (ps.getD j none).map (fun p =>
            { p with chips := p.chips + Int.fdiv gs.pot ((winnerEntries ps gs).length : Int) })
        else ps.getD j none) := by
  have hEne : showdownEvals ps gs ≠ [] := by
    unfold showdownEvals
    intro h0
    exact hne (List.map_eq_nil_iff.mp h0)
  have hEmp : (showdownEvals ps gs).isEmpty = false := by
    cases hE : showdownEvals ps gs with
    | nil => exact absurd hE hEne
    | cons a l => rfl
  obtain ⟨hmem, hmax⟩ := sortEvalsDesc_head_max (showdownEvals ps gs)
    { playerId := 0, score := 0, name := "", index := 0 } hEne
  have hperm : (winnerEntries ps gs).Perm ((showdownEvals ps gs).filter
      (fun e => decide (e.score = bestScoreOf ps gs))) := by
    unfold winnerEntries
    exact (sortEvalsDesc_perm (showdownEvals ps gs)).filter _
  have hheadf : (sortEvalsDesc (showdownEvals ps gs)).headD
      { playerId := 0, score := 0, name := "", index := 0 } ∈
      (showdownEvals ps gs).filter (fun e => decide (e.score = bestScoreOf ps gs)) := by
    rw [List.mem_filter]
    exact ⟨hmem, decide_eq_true rfl⟩
  have hlenpos : 0 < (winnerEntries ps gs).length := by
    rw [hperm.length_eq]
    exact List.length_pos_of_mem hheadf
  have hcw := serverComputeWinners_eq ps gs hEmp
  refine ⟨⟨_, hmem, rfl⟩, hmax, hlenpos, hperm.length_eq, ?_, ?_, ?_, ?_⟩
  · rw [hcw]
    rfl
  · rw [hcw]
    rfl
  · rw [hcw]
    rfl
  · intro j
    rw [hcw]
    dsimp only
    rw [foldl_credit (winnerEntries ps gs) ps _ (winnerEntries_index_nodup ps gs) j]
    have hcond : (∃ w ∈ winnerEntries ps gs, w.index = j) ↔
        (∃ e ∈ showdownEvals ps gs, e.score = bestScoreOf ps gs ∧ e.index = j) := by
      constructor
      · rintro ⟨w, hw, rfl⟩
        have hw2 := hperm.mem_iff.mp hw
        rw [List.mem_filter] at hw2
        exact ⟨w, hw2.1, of_decide_eq_true hw2.2, rfl⟩
      · rintro ⟨e, he, hsc, rfl⟩
        refine ⟨e, hperm.mem_iff.mpr ?_, rfl⟩
        rw [List.mem_filter]
        exact ⟨he, decide_eq_true hsc⟩
    exact if_congr hcond rfl rfl

/-- Witness for C9 at a concrete two-player showdown: pot 25, a royal flush
board that ties both seats. -/
theorem c9_showdown_split_witness :
    (let ps : Seats := [some ⟨1, "A", 500, 0, PlayerStatus.PLAYING,
                          [⟨Suit.hearts, 2⟩, ⟨Suit.diamonds, 3⟩], true, true,
                          false, true⟩,
                        some ⟨2, "B", 480, 0, PlayerStatus.PLAYING,
                          [⟨Suit.diamonds, 2⟩, ⟨Suit.hearts, 3⟩], false, false,
                          true, true⟩, none, none, none, none, none, none, none]
     let gs : GameState := ⟨25,
       [⟨Suit.spades, 14⟩, ⟨Suit.spades, 13⟩, ⟨Suit.spades, 12⟩,
        ⟨Suit.spades, 11⟩, ⟨Suit.spades, 10⟩], [], GamePhase.SHOWDOWN, -1, 0,
       0, 0, none, [], []⟩
     candsAux ps 0 ≠ [] ∧
     ((∃ e ∈ showdownEvals ps gs, e.score = bestScoreOf ps gs) ∧
      (∀ e ∈ showdownEvals ps gs, e.score ≤ bestScoreOf ps gs) ∧
      0 < (winnerEntries ps gs).length ∧
      (winnerEntries ps gs).length = ((showdownEvals ps gs).filter
        (fun e => decide (e.score = bestScoreOf ps gs))).length ∧
      (serverComputeWinners ps gs).2.pot = 0 ∧
      (serverComputeWinners ps gs).2.currentPlayerIndex = -1 ∧
      (serverComputeWinners ps gs).2.winners = gs.winners ++
        (winnerEntries ps gs).map (fun w =>
          { playerId := w.playerId, handName := w.name,
            amount := Int.fdiv gs.pot ((winnerEntries ps gs).length : Int) }) ∧
      (∀ j : Nat,
        (serverComputeWinners ps gs).1.getD j none =
          if ∃ e ∈ showdownEvals ps gs, e.score = bestScoreOf ps gs ∧ e.index = j then
            (ps.getD j none).map (fun p =>
              { p with chips := p.chips + Int.fdiv gs.pot ((winnerEntries ps gs).length : Int) })
          else ps.getD j none))) :=
  ⟨by decide, c9_showdown_split _ _ (by decide)⟩
